import Mathlib

/-!
Verification of the call-flow tracing core of the Android code-visualiser
repository.  The definitions in the first part of this file are a shallow
embedding of the two stage pipeline:

* `ASTParser.parseFile` / `ASTParser.buildFuncMap` (src/server/ast-parser.ts):
  the line scanner that recovers classes, methods and coarse statements from
  source text, modelled over pre-classified lines (the per-line regular
  expression matches of the source are represented as the fields of
  `LineInfo`; the scanner's control flow and state machine are translated
  faithfully).

* `CallFlowTracer` (the tracer module): `traceFromEntryMethod`,
  `traceMethod`, `processStatement`, `processMethodCall`,
  `processIfStatement`, `processLoopStatement`, `resolveFullMethodName`,
  `getAvailableEntryMethods`.  The tracer's node ids are the strings
  `node_<k>` produced from a monotonic counter `nodeIdCounter`; since the
  prefix is constant, ids are modelled as the counter value `k : Nat`
  itself.  The tracer's `funcMap` is a plain object literal, so the
  property read `this.funcMap[name]` falls back to the prototype chain:
  for the own property names of `Object.prototype` (`toString`,
  `valueOf`, `hasOwnProperty`, ...) it yields the inherited member — a
  truthy, non-iterable value — rather than `undefined`; iterating such a
  value with `for (const statement of statements)` throws a `TypeError`.
  A tracer call therefore has three outcomes, captured by `TraceResult`:
  a normal return, the thrown `TypeError`, or fuel exhaustion
  (JavaScript's unbounded recursion is modelled with explicit fuel; a
  theorem below shows the fuel used by `traceFromEntryMethod` always
  suffices, so the third outcome never occurs).  The statement processors
  receive the instance method `this.traceMethod` as an explicit parameter
  `recur`, so that they are structurally recursive over the statement and
  the whole development is executable by the kernel.

JavaScript string operations (`endsWith`, `includes`, `startsWith`,
`split('.')`) are modelled over the character lists of Lean strings.
-/

/-- Loop kinds, as in the `loopType` field of the source (`'for' | 'while'
| 'do_while'`). -/
inductive LoopType
  | «for»
  | «while»
  | do_while
deriving DecidableEq, Repr

/-- Node kinds of `FlowNode.type` (`'method' | 'decision' | 'loop' |
'start' | 'end'`). -/
inductive NodeType
  | method
  | decision
  | loop
  | start
  | «end»
deriving DecidableEq, Repr

/-- Edge kinds of `FlowLink.type` (`'calls' | 'if_true' | 'if_false' |
'loop_entry' | 'loop_exit' | 'sequence'`). -/
inductive LinkType
  | calls
  | if_true
  | if_false
  | loop_entry
  | loop_exit
  | sequence
deriving DecidableEq, Repr

/-- Statements extracted by the parser (`MethodCall`, `IfStatement`,
`LoopStatement` in ast-parser.ts).  Branch and loop bodies are nested
statement lists, as in the source interfaces. -/
inductive Statement
  | method_call (name : String) (lineNumber : Nat)
  | if_statement (condition : String) (lineNumber : Nat)
      (trueBranch : List Statement) (falseBranch : List Statement)
  | loop_statement (loopType : LoopType) (condition : String)
      (lineNumber : Nat) (body : List Statement)

/-- Flow-graph node (`FlowNode` in the tracer).  The source's string id
`node_<k>` is modelled by its numeric counter value `k`. -/
structure FlowNode where
  id : Nat
  type : NodeType
  name : String
  className : Option String
  condition : Option String
  loopType : Option LoopType
  lineNumber : Option Nat
deriving DecidableEq, Repr

/-- Flow-graph edge (`FlowLink` in the tracer). -/
structure FlowLink where
  source : Nat
  target : Nat
  type : LinkType
  branchType : Option String
deriving DecidableEq, Repr

/-- Result of a trace (`CallFlowGraph` in the tracer). -/
structure CallFlowGraph where
  nodes : List FlowNode
  links : List FlowLink
  entryMethod : String
deriving DecidableEq, Repr

/-- Function map: fully-qualified method name to statement list.  A
JavaScript object with string keys is an insertion-ordered association
list; `Object.keys` returns the keys in that order. -/
def FuncMap : Type := List (String × List Statement)

/-- Own property names of `Object.prototype`.  The source's `funcMap` is
the object literal of `buildFuncMap` (ast-parser.ts line 164), so a
property read with one of these names that is not an own key returns the
inherited member of `Object.prototype` — a function (or, for
`__proto__`, the prototype object itself): truthy and not iterable. -/
def objectPrototypeProps : List String :=
  ["constructor", "hasOwnProperty", "isPrototypeOf", "propertyIsEnumerable",
   "toLocaleString", "toString", "valueOf", "__defineGetter__",
   "__defineSetter__", "__lookupGetter__", "__lookupSetter__", "__proto__"]

/-- Result of the property read `funcMap[name]` on the prototype-bearing
object literal: the statement list of an own key, the truthy non-iterable
member inherited from `Object.prototype`, or `undefined`. -/
inductive PropValue
  | statements (stmts : List Statement)
  | inherited
  | undefined

/-- Lookup `funcMap[name]`: the binding of an own key; otherwise the
inherited `Object.prototype` member when `name` is one of its property
names; otherwise `undefined`. -/
def FuncMap.find (fm : FuncMap) (name : String) : PropValue :=
  match List.find? (fun p => p.1 == name) fm with
  | some p => PropValue.statements p.2
  | none =>
    if name ∈ objectPrototypeProps then PropValue.inherited
    else PropValue.undefined

/-- Keys of the function map in iteration order (`Object.keys`). -/
def FuncMap.keys (fm : FuncMap) : List String :=
  List.map (fun p => p.1) fm

/-- JavaScript `s.endsWith(post)` over character lists. -/
def strEndsWith (s post : String) : Bool :=
  post.data.isSuffixOf s.data

/-- JavaScript `s.startsWith(pre)` over character lists. -/
def strStartsWith (s pre : String) : Bool :=
  pre.data.isPrefixOf s.data

/-- Substring test over character lists, used to model JavaScript
`s.includes(pat)`. -/
def charsInclude (pat : List Char) : List Char → Bool
  | [] => pat.isEmpty
  | c :: rest => pat.isPrefixOf (c :: rest) || charsInclude pat rest

/-- JavaScript `s.includes(pat)`. -/
def strIncludes (s pat : String) : Bool :=
  charsInclude pat.data s.data

/-- JavaScript `s.split('.')` over character lists. -/
def splitOnDot (s : String) : List String :=
  (s.data.splitOn '.').map List.asString

/-- Tracer helper `extractClassName`: the part before the first dot, or
`"Unknown"` when the name has no dot (`parts.length > 1 ? parts[0] :
'Unknown'`). -/
def extractClassName (fullMethodName : String) : String :=
  match splitOnDot fullMethodName with
  | a :: _ :: _ => a
  | _ => "Unknown"

/-- Tracer helper `extractMethodName`: the part after the first dot, or
the whole name when it has no dot (`parts.length > 1 ? parts[1] :
fullMethodName`). -/
def extractMethodName (fullMethodName : String) : String :=
  match splitOnDot fullMethodName with
  | _ :: b :: _ => b
  | _ => fullMethodName

/-- Tracer helper `resolveFullMethodName`: filter the keys that end in
`.methodName` or equal `methodName`, in map iteration order, and take the
first match, falling back to `methodName` itself. -/
def resolveFullMethodName (fm : FuncMap) (methodName : String) : String :=
  let possibleNames := (FuncMap.keys fm).filter
    (fun key => strEndsWith key ("." ++ methodName) || key == methodName)
  possibleNames.head?.getD methodName

/-- Fixed lifecycle-name substrings of `getAvailableEntryMethods`. -/
def entryPatterns : List String :=
  ["onCreate", "onStart", "onResume", "onPause", "onStop", "onDestroy",
   "onActivityResult", "onRequestPermissionsResult", "main"]

/-- Tracer query `getAvailableEntryMethods`: the keys for which some entry
pattern occurs as a substring of the key (`methodName.includes(pattern)`). -/
def getAvailableEntryMethods (fm : FuncMap) : List String :=
  (FuncMap.keys fm).filter
    (fun methodName => entryPatterns.any (fun pattern => strIncludes methodName pattern))

/-- Tracer query `getAllMethods`: all keys in map order. -/
def getAllMethods (fm : FuncMap) : List String :=
  FuncMap.keys fm

/-- Display name of a loop node: `statement.loopType.toUpperCase()`. -/
def loopTypeUpper : LoopType → String
  | LoopType.«for» => "FOR"
  | LoopType.«while» => "WHILE"
  | LoopType.do_while => "DO_WHILE"

/-- Mutable tracer state: the `visited` set, the node and link
accumulators and the id counter (`nodeIdCounter`). -/
structure TraceState where
  visited : List String
  nodes : List FlowNode
  links : List FlowLink
  nodeIdCounter : Nat
deriving DecidableEq, Repr

/-- Outcome of one tracer call: a normal return of the terminal node id
and the updated state; the JavaScript `TypeError` thrown when
`for (const statement of statements)` (part_004 line 125) iterates the
non-iterable member inherited from `Object.prototype`; or fuel exhaustion,
an artifact of the embedding that is proven unreachable below.  A thrown
`TypeError` propagates: no state is returned along that path. -/
inductive TraceResult
  | ok (terminal : Nat) (st : TraceState)
  | typeError
  | outOfFuel
deriving DecidableEq, Repr

/-- Shape of the recursive reference `this.traceMethod` that the statement
processors call back into: method name, parent node id, state. -/
def TraceFn : Type := String → Nat → TraceState → TraceResult

mutual

/-- Left fold of `processStatement` over a statement list, threading the
current terminal node id (the `for` loop bodies of `traceMethod`,
`processIfStatement` and `processLoopStatement`).  A thrown `TypeError`
(and the embedding's fuel exhaustion) aborts the fold, as a JavaScript
exception aborts the loop. -/
def processStmts (fm : FuncMap) (recur : TraceFn) (stmts : List Statement)
    (parentNodeId : Nat) (st : TraceState) : TraceResult :=
  match stmts with
  | [] => TraceResult.ok parentNodeId st
  | stmt :: rest =>
    match processStatement fm recur stmt parentNodeId st with
    | TraceResult.typeError => TraceResult.typeError
    | TraceResult.outOfFuel => TraceResult.outOfFuel
    | TraceResult.ok nid st1 => processStmts fm recur rest nid st1

/-- Tracer `processStatement`: dispatch on the statement tag.  The source
delegates the three cases to `processMethodCall`, `processIfStatement` and
`processLoopStatement`; their bodies are inlined here so that the
recursion is structural, and the named functions below are definitional
specializations of the corresponding cases. -/
def processStatement (fm : FuncMap) (recur : TraceFn) (stmt : Statement)
    (parentNodeId : Nat) (st : TraceState) : TraceResult :=
  match stmt with
  | Statement.method_call name lineNumber =>
    -- body of `processMethodCall`.  The truthiness test
    -- `if (this.funcMap[fullMethodName])` holds both for an own statement
    -- array (arrays are truthy, even empty ones) and for an inherited
    -- `Object.prototype` member, so both recurse into `traceMethod`.
    let fullMethodName := resolveFullMethodName fm name
    (match FuncMap.find fm fullMethodName with
     | PropValue.statements _stmts => recur fullMethodName parentNodeId st
     | PropValue.inherited => recur fullMethodName parentNodeId st
     | PropValue.undefined =>
       let callNode : FlowNode :=
         { id := st.nodeIdCounter, type := NodeType.method, name := name,
           className := none, condition := none, loopType := none,
           lineNumber := some lineNumber }
       TraceResult.ok callNode.id
         { st with
           nodes := st.nodes ++ [callNode],
           links := st.links ++
             [{ source := parentNodeId, target := callNode.id,
                type := LinkType.calls, branchType := none }],
           nodeIdCounter := st.nodeIdCounter + 1 })
  | Statement.if_statement condition lineNumber trueBranch falseBranch =>
    -- body of `processIfStatement`
    let decisionNode : FlowNode :=
      { id := st.nodeIdCounter, type := NodeType.decision, name := "Decision",
        className := none, condition := some condition, loopType := none,
        lineNumber := some lineNumber }
    let st1 : TraceState :=
      { st with
        nodes := st.nodes ++ [decisionNode],
        links := st.links ++
          [{ source := parentNodeId, target := decisionNode.id,
             type := LinkType.sequence, branchType := none }],
        nodeIdCounter := st.nodeIdCounter + 1 }
    (match processStmts fm recur trueBranch decisionNode.id st1 with
     | TraceResult.typeError => TraceResult.typeError
     | TraceResult.outOfFuel => TraceResult.outOfFuel
     | TraceResult.ok trueBranchEndId st2 =>
       match processStmts fm recur falseBranch decisionNode.id st2 with
       | TraceResult.typeError => TraceResult.typeError
       | TraceResult.outOfFuel => TraceResult.outOfFuel
       | TraceResult.ok falseBranchEndId st3 =>
         if trueBranch.length > 0 || falseBranch.length > 0 then
           let mergeNode : FlowNode :=
             { id := st3.nodeIdCounter, type := NodeType.method, name := "Merge",
               className := none, condition := none, loopType := none,
               lineNumber := none }
           let st4 : TraceState :=
             { st3 with
               nodes := st3.nodes ++ [mergeNode],
               nodeIdCounter := st3.nodeIdCounter + 1 }
           let st5 : TraceState :=
             if trueBranch.length > 0 then
               let st5a : TraceState :=
                 { st4 with links := st4.links ++
                     [{ source := decisionNode.id,
                        target := if trueBranchEndId == decisionNode.id then
                            mergeNode.id else trueBranchEndId,
                        type := LinkType.if_true, branchType := some "true" }] }
               if trueBranchEndId ≠ decisionNode.id then
                 { st5a with links := st5a.links ++
                     [{ source := trueBranchEndId, target := mergeNode.id,
                        type := LinkType.sequence, branchType := none }] }
               else st5a
             else st4
           let st6 : TraceState :=
             if falseBranch.length > 0 then
               let st6a : TraceState :=
                 { st5 with links := st5.links ++
                     [{ source := decisionNode.id,
                        target := if falseBranchEndId == decisionNode.id then
                            mergeNode.id else falseBranchEndId,
                        type := LinkType.if_false, branchType := some "false" }] }
               if falseBranchEndId ≠ decisionNode.id then
                 { st6a with links := st6a.links ++
                     [{ source := falseBranchEndId, target := mergeNode.id,
                        type := LinkType.sequence, branchType := none }] }
               else st6a
             else st5
           TraceResult.ok mergeNode.id st6
         else
           TraceResult.ok decisionNode.id st3)
  | Statement.loop_statement loopType condition lineNumber body =>
    -- body of `processLoopStatement`
    let loopNode : FlowNode :=
      { id := st.nodeIdCounter, type := NodeType.loop,
        name := loopTypeUpper loopType ++ " Loop",
        className := none, condition := some condition,
        loopType := some loopType, lineNumber := some lineNumber }
    let st1 : TraceState :=
      { st with
        nodes := st.nodes ++ [loopNode],
        links := st.links ++
          [{ source := parentNodeId, target := loopNode.id,
             type := LinkType.sequence, branchType := none }],
        nodeIdCounter := st.nodeIdCounter + 1 }
    (match processStmts fm recur body loopNode.id st1 with
     | TraceResult.typeError => TraceResult.typeError
     | TraceResult.outOfFuel => TraceResult.outOfFuel
     | TraceResult.ok bodyEndId st2 =>
       let st3 : TraceState :=
         if bodyEndId ≠ loopNode.id then
           { st2 with links := st2.links ++
               [{ source := bodyEndId, target := loopNode.id,
                  type := LinkType.loop_exit, branchType := none }] }
         else st2
       let exitNode : FlowNode :=
         { id := st3.nodeIdCounter, type := NodeType.method, name := "Loop Exit",
           className := none, condition := none, loopType := none,
           lineNumber := none }
       let st4 : TraceState :=
         { st3 with
           nodes := st3.nodes ++ [exitNode],
           links := st3.links ++
             [{ source := loopNode.id, target := exitNode.id,
                type := LinkType.loop_exit, branchType := none }],
           nodeIdCounter := st3.nodeIdCounter + 1 }
       TraceResult.ok exitNode.id st4)

end

/-- Tracer `processMethodCall`: resolve the callee; trace into it (via
the `this.traceMethod` reference `recur`) when the property read for the
resolved name is truthy — an own binding or an inherited
`Object.prototype` member — otherwise emit an external leaf call node. -/
def processMethodCall (fm : FuncMap) (recur : TraceFn) (name : String)
    (lineNumber : Nat) (parentNodeId : Nat) (st : TraceState) :
    TraceResult :=
  processStatement fm recur (Statement.method_call name lineNumber) parentNodeId st

/-- Tracer `processIfStatement`: decision node, branch folds, optional
merge node and branch wiring. -/
def processIfStatement (fm : FuncMap) (recur : TraceFn) (condition : String)
    (lineNumber : Nat) (trueBranch falseBranch : List Statement)
    (parentNodeId : Nat) (st : TraceState) : TraceResult :=
  processStatement fm recur
    (Statement.if_statement condition lineNumber trueBranch falseBranch)
    parentNodeId st

/-- Tracer `processLoopStatement`: loop node, body fold, back edge when
the body advanced, and an explicit exit node. -/
def processLoopStatement (fm : FuncMap) (recur : TraceFn) (loopType : LoopType)
    (condition : String) (lineNumber : Nat) (body : List Statement)
    (parentNodeId : Nat) (st : TraceState) : TraceResult :=
  processStatement fm recur
    (Statement.loop_statement loopType condition lineNumber body)
    parentNodeId st

/-- Tracer `traceMethod(methodName, parentNodeId)`: reference node for an
already-visited name, otherwise mark visited, emit the method node and
fold the method's statements.  The statement lookup
`this.funcMap[methodName] || []` yields the own statement list, `[]` for
`undefined`, but for a name inheriting an `Object.prototype` member it
yields that truthy non-iterable member, and the following
`for (const statement of statements)` throws a `TypeError`.  The fuel
argument models JavaScript's unbounded call stack; each nesting level of
`traceMethod` consumes one unit, and the statement processors receive
`traceMethod fm fuel` as the `this.traceMethod` reference for nested
calls. -/
def traceMethod (fm : FuncMap) : Nat → String → Nat → TraceState →
    TraceResult
  | 0, _, _, _ => TraceResult.outOfFuel
  | fuel + 1, methodName, parentNodeId, st =>
    if methodName ∈ st.visited then
      let refNode : FlowNode :=
        { id := st.nodeIdCounter, type := NodeType.method,
          name := methodName ++ " (ref)",
          className := some (extractClassName methodName),
          condition := none, loopType := none, lineNumber := none }
      TraceResult.ok refNode.id
        { st with
          nodes := st.nodes ++ [refNode],
          links := st.links ++
            [{ source := parentNodeId, target := refNode.id,
               type := LinkType.calls, branchType := none }],
          nodeIdCounter := st.nodeIdCounter + 1 }
    else
      let st1 : TraceState := { st with visited := methodName :: st.visited }
      let methodNode : FlowNode :=
        { id := st1.nodeIdCounter, type := NodeType.method,
          name := extractMethodName methodName,
          className := some (extractClassName methodName),
          condition := none, loopType := none, lineNumber := none }
      let st2 : TraceState :=
        { st1 with
          nodes := st1.nodes ++ [methodNode],
          links := st1.links ++
            [{ source := parentNodeId, target := methodNode.id,
               type := LinkType.calls, branchType := none }],
          nodeIdCounter := st1.nodeIdCounter + 1 }
      match FuncMap.find fm methodName with
      | PropValue.statements stmts =>
        processStmts fm (traceMethod fm fuel) stmts methodNode.id st2
      | PropValue.inherited => TraceResult.typeError
      | PropValue.undefined =>
        processStmts fm (traceMethod fm fuel) [] methodNode.id st2

/-- Initial Start node of a trace: `{id: node_0, type: start, name: START,
lineNumber: 1}`. -/
def startNode : FlowNode :=
  { id := 0, type := NodeType.start, name := "START",
    className := none, condition := none, loopType := none,
    lineNumber := some 1 }

/-- State of a trace right after the Start node was emitted (the `reset`
call plus the Start push of `traceFromEntryMethod`). -/
def initialState : TraceState :=
  { visited := [], nodes := [startNode], links := [], nodeIdCounter := 1 }

/-- Outcome of `traceFromEntryMethod`: the returned graph, the
propagated `TypeError` (the caller receives no graph), or the embedding's
fuel exhaustion, proven unreachable below. -/
inductive TraceOutcome
  | graph (g : CallFlowGraph)
  | typeError
  | outOfFuel
deriving DecidableEq, Repr

/-- Tracer `traceFromEntryMethod`, fuelled: Start node, trace of the
entry method, End node when the trace returns; a thrown `TypeError`
propagates out of `traceFromEntryMethod` and no graph is returned.  Fuel
`fm.length + 1` covers one `traceMethod` nesting level per function-map
key plus the entry method itself; fuel exhaustion is proven impossible
below. -/
def traceFromEntryMethodRun (fm : FuncMap) (entryMethod : String) :
    TraceOutcome :=
  match traceMethod fm (List.length fm + 1) entryMethod startNode.id initialState with
  | TraceResult.typeError => TraceOutcome.typeError
  | TraceResult.outOfFuel => TraceOutcome.outOfFuel
  | TraceResult.ok _ st2 =>
    let endNode : FlowNode :=
      { id := st2.nodeIdCounter, type := NodeType.«end», name := "END",
        className := none, condition := none, loopType := none,
        lineNumber := none }
    TraceOutcome.graph { nodes := st2.nodes ++ [endNode], links := st2.links,
                         entryMethod := entryMethod }

/-- Placeholder value of the total wrapper below on a run that returns no
graph (the thrown `TypeError`, or the fuel artifact proven impossible): a
minimal Start/End pair.  The program returns nothing on such runs; the
placeholder is never a program output, and the lemma
`traceFromEntryMethod_eq_of_graph` below ties the wrapper's value to
every run that does return. -/
def placeholderGraph (entryMethod : String) : CallFlowGraph :=
  { nodes := [startNode,
      { id := 1, type := NodeType.«end», name := "END", className := none,
        condition := none, loopType := none, lineNumber := none }],
    links := [], entryMethod := entryMethod }

/-- Total convenience wrapper over `traceFromEntryMethodRun`: the
returned graph on a returning run, the placeholder otherwise. -/
def traceFromEntryMethod (fm : FuncMap) (entryMethod : String) : CallFlowGraph :=
  match traceFromEntryMethodRun fm entryMethod with
  | TraceOutcome.graph g => g
  | _ => placeholderGraph entryMethod

/-!
Shallow embedding of the Structure Extractor (`ASTParser.parseFile` in
src/server/ast-parser.ts).  The scanner walks the lines of a file keeping
`currentClass`, `currentMethod`, `braceLevel`, `inClass`, `inMethod`.  The
per-line regular-expression matches of the source (`classPattern`,
`parseMethodDeclaration`, and the statement patterns of
`parseStatements`) are pure functions of the line's text; they are
represented here by the fields of `LineInfo`, one value per line, while
the scanner's state machine is translated statement by statement.
-/

/-- Data recovered by `parseMethodDeclaration` from a line that matches
the method-declaration pattern: name, return type, visibility and the
parsed `(name, type)` parameter pairs. -/
structure MethodSig where
  name : String
  returnType : String
  visibility : String
  parameters : List (String × String)
deriving DecidableEq, Repr

/-- Data recovered from a line matching the class pattern: class name,
superclass (`extends` in the source interface) and interface list. -/
structure ClassSig where
  name : String
  extendsName : Option String
  implementsList : List String
deriving DecidableEq, Repr

/-- Per-line regular-expression facts consumed by the scanner: whether the
trimmed line is blank or a comment (`//`, `/*`), the counts of `{` and `}`
on the line, the class-pattern match, the `parseMethodDeclaration` match,
the first call-like token `ident(` (`methodCallPattern`), whether the line
contains both `if` and `(`, the first parenthesised text
(`extractCondition`), and the loop-keyword match. -/
structure LineInfo where
  isBlankOrComment : Bool
  openBraces : Nat
  closeBraces : Nat
  classMatch : Option ClassSig
  methodMatch : Option MethodSig
  callMatch : Option String
  hasIfParen : Bool
  condition : Option String
  loopMatch : Option LoopType

/-- Deny list `frameworkMethods` of `isAndroidFrameworkCall`. -/
def frameworkMethods : List String :=
  ["Log", "Toast", "findViewById", "setContentView", "getSystemService",
   "startActivity", "finish", "runOnUiThread", "getString", "getResources"]

/-- JavaScript `s.toLowerCase()`. -/
def toLowerStr (s : String) : String :=
  (s.data.map Char.toLower).asString

/-- Parser helper `isAndroidFrameworkCall`: the callee name contains a
framework name or starts with its lowercase form. -/
def isAndroidFrameworkCall (methodName : String) : Bool :=
  frameworkMethods.any (fun framework =>
    strIncludes methodName framework ||
    strStartsWith methodName (toLowerStr framework))

/-- Parser `parseStatements(line, lineNumber)`: an optional call statement
(first `ident(` token, filtered by the deny list), an optional if
statement (default condition `"condition"`), and an optional loop
statement (default condition `"loop_condition"`); branch and loop bodies
are always empty here. -/
def parseStatements (li : LineInfo) (lineNumber : Nat) : List Statement :=
  (match li.callMatch with
   | some nm =>
     if isAndroidFrameworkCall nm then [] else [Statement.method_call nm lineNumber]
   | none => []) ++
  (if li.hasIfParen then
     [Statement.if_statement (li.condition.getD "condition") lineNumber [] []]
   else []) ++
  (match li.loopMatch with
   | some lt =>
     [Statement.loop_statement lt (li.condition.getD "loop_condition") lineNumber []]
   | none => [])

/-- Parser output `ParsedMethod`. -/
structure ParsedMethod where
  name : String
  className : String
  fullName : String
  visibility : String
  parameters : List (String × String)
  returnType : String
  statements : List Statement
  lineNumber : Nat

/-- Parser output `ParsedClass` (`extends` and `implements` in the source
interface). -/
structure ParsedClass where
  name : String
  extendsName : Option String
  implementsList : List String
  methods : List ParsedMethod

/-- Scanner state of `parseFile`: result list, open class, open method,
brace depth and the two scope flags. -/
structure ScanState where
  classes : List ParsedClass
  currentClass : Option ParsedClass
  currentMethod : Option ParsedMethod
  braceLevel : Int
  inClass : Bool
  inMethod : Bool

/-- One iteration of the `parseFile` line loop.  Mirrors the source order:
skip blank/comment lines; update the brace depth; a class match (only
when not inside a method) flushes the previous class and opens a new one;
without an open class the line is skipped; a method match while inside a
class flushes the open method and opens a new one; otherwise statements
are appended to the open method, then the method scope and the class
scope are closed when the brace depth has returned to their base depth. -/
def scanLine (st : ScanState) (li : LineInfo) (lineNumber : Nat) : ScanState :=
  if li.isBlankOrComment then st else
  let st : ScanState :=
    { st with braceLevel := st.braceLevel + li.openBraces - li.closeBraces }
  match li.classMatch, st.inMethod with
  | some cs, false =>
    { st with
      classes := st.classes ++ (match st.currentClass with
        | some c => [c]
        | none => []),
      currentClass := (some
        { name := cs.name, extendsName := cs.extendsName,
          implementsList := cs.implementsList, methods := [] }),
      inClass := true }
  | _, _ =>
    match st.currentClass with
    | none => st
    | some cc =>
      match li.methodMatch, st.inClass with
      | some ms, true =>
        let cc1 : ParsedClass :=
          match st.currentMethod with
          | some m => { cc with methods := cc.methods ++ [m] }
          | none => cc
        { st with
          currentClass := some cc1,
          currentMethod := (some
            { name := ms.name, className := cc.name,
              fullName := cc.name ++ "." ++ ms.name,
              visibility := ms.visibility, parameters := ms.parameters,
              returnType := ms.returnType, statements := [],
              lineNumber := lineNumber }),
          inMethod := true }
      | _, _ =>
        let st : ScanState :=
          match st.currentMethod, st.inMethod with
          | some m, true =>
            { st with currentMethod := (some
                { m with statements := m.statements ++ parseStatements li lineNumber }) }
          | _, _ => st
        let st : ScanState :=
          if st.inMethod ∧ st.braceLevel ≤ (if st.inClass then 1 else 0) then
            { st with
              currentClass := some (match st.currentMethod with
                | some m => { cc with methods := cc.methods ++ [m] }
                | none => cc),
              currentMethod := none,
              inMethod := false }
          else st
        if st.inClass ∧ st.braceLevel ≤ 0 then
          match st.currentClass with
          | some c =>
            { st with
              classes := st.classes ++ [(match st.currentMethod with
                | some m => { c with methods := c.methods ++ [m] }
                | none => c)],
              currentClass := none,
              currentMethod := none,
              inClass := false,
              inMethod := false }
          | none => { st with inClass := false, inMethod := false }
        else st

/-- Parser `parseFile`: fold the scanner over the lines (line numbers are
1-based) and flush any still-open method and class. -/
def parseFile (lines : List LineInfo) : List ParsedClass :=
  let final := lines.enum.foldl
    (fun st p => scanLine st p.2 (p.1 + 1))
    { classes := [], currentClass := none, currentMethod := none,
      braceLevel := 0, inClass := false, inMethod := false }
  match final.currentClass with
  | none => final.classes
  | some cc =>
    match final.currentMethod with
    | some m => final.classes ++ [{ cc with methods := cc.methods ++ [m] }]
    | none => final.classes ++ [cc]

/-!
Invariants and measures used by the verification, followed by concrete
inputs used in the example and counterexample theorems.
-/

/-- Node ids of a state, in emission order. -/
def nodeIds (st : TraceState) : List Nat :=
  st.nodes.map FlowNode.id

/-- Well-formedness invariant of the tracer state: every emitted node id
is below the counter, ids are strictly increasing in emission order, and
every edge endpoint is the id of an emitted node. -/
def TraceInv (st : TraceState) : Prop :=
  (∀ n ∈ st.nodes, n.id < st.nodeIdCounter) ∧
  (nodeIds st).Pairwise (fun a b => a < b) ∧
  (∀ l ∈ st.links, l.source ∈ nodeIds st ∧ l.target ∈ nodeIds st)

/-- How one tracer step may change the state: the counter grows, the
visited set grows, nodes are appended (all fresh and neither Start nor
End typed) and links are appended (`if_true` and `if_false` edges leave
only from fresh nodes). -/
def StepOk (st stF : TraceState) : Prop :=
  st.nodeIdCounter ≤ stF.nodeIdCounter ∧
  (∀ x ∈ st.visited, x ∈ stF.visited) ∧
  (∃ ns, stF.nodes = st.nodes ++ ns ∧
    ∀ n ∈ ns, st.nodeIdCounter ≤ n.id ∧
      n.type ≠ NodeType.start ∧ n.type ≠ NodeType.«end») ∧
  (∃ ls, stF.links = st.links ++ ls ∧
    ∀ l ∈ ls, (l.type = LinkType.if_true ∨ l.type = LinkType.if_false) →
      st.nodeIdCounter ≤ l.source)

/-- Contract of the `this.traceMethod` reference assumed by the statement
processors: on success it preserves the invariant, performs a step, and
returns the id of a node of the final state, at least the entry counter. -/
def RecurOk (recur : TraceFn) : Prop :=
  ∀ name pid st r stF, TraceInv st → pid ∈ nodeIds st →
    recur name pid st = TraceResult.ok r stF →
    TraceInv stF ∧ StepOk st stF ∧ r ∈ nodeIds stF ∧ st.nodeIdCounter ≤ r

/-- Number of function-map keys not yet visited: the measure that bounds
how much fuel `traceMethod` can consume. -/
def unvis (fm : FuncMap) (visited : List String) : Nat :=
  ((FuncMap.keys fm).filter (fun k => !(visited.contains k))).length

/-- Mutual recursion example: `A.f` calls `g`, `B.g` calls `f`. -/
def mutualRecursionMap : FuncMap :=
  [("A.f", [Statement.method_call "g" 1]),
   ("B.g", [Statement.method_call "f" 1])]

/-- Branch example: entry whose single statement is a Branch with a
two-call true body and an empty false body. -/
def branchExampleMap : FuncMap :=
  [("E.go", [Statement.if_statement "c" 2
    [Statement.method_call "a" 3, Statement.method_call "b" 4] []])]

/-- Loop example: entry with a while Loop whose body is one Call to `m`,
which resolves to `A.m`, whose own body calls the unresolved `x`. -/
def loopExampleMap : FuncMap :=
  [("E.go", [Statement.loop_statement LoopType.«while» "c" 2
    [Statement.method_call "m" 3]]),
   ("A.m", [Statement.method_call "x" 9])]

/-- Resolution example: a bare key `foo` earlier in iteration order than
the suffix-matching key `A.foo`. -/
def suffixExampleMap : FuncMap :=
  [("foo", []), ("A.foo", [])]

/-- Entry-pattern example: a key whose class portion, but not its method
portion, contains `onCreate`. -/
def entryExampleMap : FuncMap :=
  [("onCreateX.foo", [])]

/-- Entry-pattern example of the specification: `MainActivity.onCreate`
and `Utils.helper`. -/
def lifecycleExampleMap : FuncMap :=
  [("MainActivity.onCreate", []), ("Utils.helper", [])]

/-- Line classification of the five-line Java source
`class A { / void m() { / return foo(1); / } / }`: line 3 is a body line
of `m` that also matches the Java method-declaration pattern (return type
`return`, name `foo`), exactly as the source regular expression does. -/
def javaBugLines : List LineInfo :=
  [ { isBlankOrComment := false, openBraces := 1, closeBraces := 0,
      classMatch := some { name := "A", extendsName := none, implementsList := [] },
      methodMatch := none, callMatch := none, hasIfParen := false,
      condition := none, loopMatch := none },
    { isBlankOrComment := false, openBraces := 1, closeBraces := 0,
      classMatch := none,
      methodMatch := some { name := "m", returnType := "void",
                            visibility := "package", parameters := [] },
      callMatch := some "m", hasIfParen := false,
      condition := none, loopMatch := none },
    { isBlankOrComment := false, openBraces := 0, closeBraces := 0,
      classMatch := none,
      methodMatch := some { name := "foo", returnType := "return",
                            visibility := "package", parameters := [] },
      callMatch := some "foo", hasIfParen := false,
      condition := some "1", loopMatch := none },
    { isBlankOrComment := false, openBraces := 0, closeBraces := 1,
      classMatch := none, methodMatch := none, callMatch := none,
      hasIfParen := false, condition := none, loopMatch := none },
    { isBlankOrComment := false, openBraces := 0, closeBraces := 1,
      classMatch := none, methodMatch := none, callMatch := none,
      hasIfParen := false, condition := none, loopMatch := none } ]

/-!
Generic helper lemmas.
-/

/-- Filtering with a stronger predicate keeps at most as many elements. -/
theorem length_filter_mono {α : Type} (l : List α) (p q : α → Bool)
    (h : ∀ a ∈ l, p a = true → q a = true) :
    (l.filter p).length ≤ (l.filter q).length := by
  induction l with
  | nil => simp
  | cons a t ih =>
    have ih1 := ih (fun x hx => h x (List.mem_cons_of_mem a hx))
    by_cases hp : p a = true
    · have hq := h a (List.mem_cons_self a t) hp
      simp [List.filter_cons, hp, hq]
      omega
    · have hp1 : p a = false := by
        cases hpa : p a
        · rfl
        · exact absurd hpa hp
      simp only [List.filter_cons, hp1]
      by_cases hq : q a = true
      · simp [hq]; omega
      · have hq1 : q a = false := by
          cases hqa : q a
          · rfl
          · exact absurd hqa hq
        simp [hq1]; omega

/-- The head of a filtered list is the first element satisfying the
predicate. -/
theorem head?_filter_eq_find? {α : Type} (p : α → Bool) (l : List α) :
    (l.filter p).head? = l.find? p := by
  induction l with
  | nil => rfl
  | cons a t ih =>
    by_cases hp : p a = true
    · simp [List.filter_cons, List.find?_cons, hp]
    · have hp1 : p a = false := by
        cases hpa : p a
        · rfl
        · exact absurd hpa hp
      simp [List.filter_cons, List.find?_cons, hp1, ih]

/-- `charsInclude` decides the sublist (substring) relation. -/
theorem charsInclude_iff (pat l : List Char) :
    charsInclude pat l = true ↔ pat <:+: l := by
  induction l with
  | nil =>
    simp [charsInclude, List.isEmpty_iff, List.infix_nil]
  | cons c rest ih =>
    simp [charsInclude, List.isPrefixOf_iff_prefix, ih, List.infix_cons_iff]

/-- A name that is not an own key and not an inherited `Object.prototype`
property name looks up to `undefined`. -/
theorem find_eq_undefined (fm : FuncMap) (name : String)
    (h1 : name ∉ FuncMap.keys fm) (h2 : name ∉ objectPrototypeProps) :
    FuncMap.find fm name = PropValue.undefined := by
  unfold FuncMap.find
  rw [List.find?_eq_none.mpr]
  · simp [h2]
  · intro p hp hbeq
    exact h1 (List.mem_map.mpr ⟨p, hp, by simpa using hbeq⟩)

/-- A name that is not an own key looks up to the inherited member or to
`undefined`, according to whether it names an `Object.prototype`
property. -/
theorem find_of_not_key (fm : FuncMap) (name : String)
    (h : name ∉ FuncMap.keys fm) :
    FuncMap.find fm name =
      if name ∈ objectPrototypeProps then PropValue.inherited
      else PropValue.undefined := by
  unfold FuncMap.find
  rw [List.find?_eq_none.mpr]
  intro p hp hbeq
  exact h (List.mem_map.mpr ⟨p, hp, by simpa using hbeq⟩)

/-- A lookup that yields a statement list comes from an own key. -/
theorem key_of_find_statements (fm : FuncMap) (name : String)
    (stl : List Statement)
    (h : FuncMap.find fm name = PropValue.statements stl) :
    name ∈ FuncMap.keys fm := by
  unfold FuncMap.find at h
  cases hq : List.find? (fun p => p.1 == name) fm with
  | none =>
    rw [hq] at h
    by_cases hm : name ∈ objectPrototypeProps <;> simp [hm] at h
  | some p =>
    have h1 := List.mem_of_find?_eq_some hq
    have h3 : p.1 = name := by simpa using List.find?_some hq
    exact h3 ▸ List.mem_map.mpr ⟨p, h1, rfl⟩

/-- A tracer result that is not the fuel artifact is a normal return or
the thrown `TypeError`. -/
theorem traceResult_cases (t : TraceResult)
    (h : t ≠ TraceResult.outOfFuel) :
    (∃ r st, t = TraceResult.ok r st) ∨ t = TraceResult.typeError := by
  cases t with
  | ok r st => exact Or.inl ⟨r, st, rfl⟩
  | typeError => exact Or.inr rfl
  | outOfFuel => exact absurd rfl h

/-- Growing the visited set cannot increase the number of unvisited keys. -/
theorem unvis_mono (fm : FuncMap) {v1 v2 : List String}
    (h : ∀ x ∈ v1, x ∈ v2) : unvis fm v2 ≤ unvis fm v1 := by
  unfold unvis
  apply length_filter_mono
  intro a _ hp
  simp only [Bool.not_eq_true'] at hp ⊢
  cases hq : v1.contains a
  · rfl
  · exact absurd (h a (by simpa using hq)) (by simpa using hp)

/-- Marking an unvisited key visited strictly decreases the measure. -/
theorem unvis_cons_lt (fm : FuncMap) (name : String) (visited : List String)
    (hk : name ∈ FuncMap.keys fm) (hnv : name ∉ visited) :
    unvis fm (name :: visited) < unvis fm visited := by
  unfold unvis
  have hpq : ∀ x : String, (!((name :: visited).contains x)) = true →
      (!(visited.contains x)) = true := by
    intro x hx
    simp only [List.contains_cons, Bool.not_eq_true', Bool.or_eq_false_iff] at hx
    simp only [Bool.not_eq_true']
    exact hx.2
  revert hk
  generalize FuncMap.keys fm = l
  intro hk
  induction l with
  | nil => cases hk
  | cons a t ih =>
    have hmono : (t.filter (fun k => !((name :: visited).contains k))).length ≤
        (t.filter (fun k => !(visited.contains k))).length :=
      length_filter_mono t _ _ (fun x _ hx => hpq x hx)
    by_cases hpa : (!((name :: visited).contains a)) = true
    · have hqa := hpq a hpa
      rcases List.mem_cons.mp hk with rfl | hat
      · exfalso
        simp at hpa
      · have hlt := ih hat
        simp only [List.filter_cons, hpa, hqa, if_true, List.length_cons]
        omega
    · have hpa1 : (!((name :: visited).contains a)) = false := by
        cases h : (!((name :: visited).contains a))
        · rfl
        · exact absurd h hpa
      by_cases hqa : (!(visited.contains a)) = true
      · simp only [List.filter_cons, hpa1, hqa, if_true, Bool.false_eq_true,
          if_false, List.length_cons]
        omega
      · have hqa1 : (!(visited.contains a)) = false := by
          cases h : (!(visited.contains a))
          · rfl
          · exact absurd h hqa
        rcases List.mem_cons.mp hk with rfl | hat
        · exfalso
          simp only [Bool.not_eq_false] at hqa1
          exact hnv (by simpa using hqa1)
        · have hlt := ih hat
          simp only [List.filter_cons, hpa1, hqa1, Bool.false_eq_true, if_false]
          exact hlt

/-- The measure is bounded by the number of keys. -/
theorem unvis_le_length (fm : FuncMap) (v : List String) :
    unvis fm v ≤ List.length fm := by
  unfold unvis
  calc ((FuncMap.keys fm).filter _).length ≤ (FuncMap.keys fm).length :=
        List.length_filter_le _ _
    _ = List.length fm := by unfold FuncMap.keys; simp

/-!
Basic facts about `StepOk` and the three state-push shapes of the tracer.
-/

/-- Reflexivity of `StepOk`. -/
theorem stepOk_rfl (st : TraceState) : StepOk st st :=
  ⟨le_rfl, fun _ h => h, ⟨[], by simp, by simp⟩, ⟨[], by simp, by simp⟩⟩

/-- Transitivity of `StepOk`. -/
theorem stepOk_trans {a b c : TraceState} (h1 : StepOk a b) (h2 : StepOk b c) :
    StepOk a c := by
  obtain ⟨c1, v1, ⟨ns1, hn1, hns1⟩, ⟨ls1, hl1, hls1⟩⟩ := h1
  obtain ⟨c2, v2, ⟨ns2, hn2, hns2⟩, ⟨ls2, hl2, hls2⟩⟩ := h2
  refine ⟨le_trans c1 c2, fun x hx => v2 x (v1 x hx),
    ⟨ns1 ++ ns2, ?_, ?_⟩, ⟨ls1 ++ ls2, ?_, ?_⟩⟩
  · rw [hn2, hn1, List.append_assoc]
  · intro n hn
    rcases List.mem_append.mp hn with h | h
    · exact hns1 n h
    · have h3 := hns2 n h
      exact ⟨le_trans c1 h3.1, h3.2.1, h3.2.2⟩
  · rw [hl2, hl1, List.append_assoc]
  · intro l hl
    rcases List.mem_append.mp hl with h | h
    · exact hls1 l h
    · intro hty
      exact le_trans c1 (hls2 l h hty)

/-- Node-id membership is preserved along a step. -/
theorem mem_nodeIds_of_stepOk {a b : TraceState} (h : StepOk a b) {x : Nat}
    (hx : x ∈ nodeIds a) : x ∈ nodeIds b := by
  obtain ⟨_, _, ⟨ns, hn, _⟩, _⟩ := h
  unfold nodeIds at hx ⊢
  rw [hn, List.map_append]
  exact List.mem_append_left _ hx

/-- Every node id of a well-formed state is below the counter. -/
theorem nodeIds_lt_counter {st : TraceState} (hinv : TraceInv st) {x : Nat}
    (hx : x ∈ nodeIds st) : x < st.nodeIdCounter := by
  obtain ⟨h1, _, _⟩ := hinv
  obtain ⟨n, hn, rfl⟩ := List.mem_map.mp hx
  exact h1 n hn

/-- Pushing a fresh node with an edge into it from an existing node
preserves the invariant and performs a step from any base state. -/
theorem push_node_link (base : TraceState) {st : TraceState} (hinv : TraceInv st)
    (hstep : StepOk base st) (ty : NodeType) (h1 : ty ≠ NodeType.start)
    (h2 : ty ≠ NodeType.«end») (nm : String) (cn co : Option String)
    (lt : Option LoopType) (ln : Option Nat) {pid : Nat}
    (hpid : pid ∈ nodeIds st) (lty : LinkType) (h3 : lty ≠ LinkType.if_true)
    (h4 : lty ≠ LinkType.if_false) (bt : Option String) (vis : List String)
    (hvis : ∀ x ∈ st.visited, x ∈ vis) :
    TraceInv ⟨vis, st.nodes ++ [⟨st.nodeIdCounter, ty, nm, cn, co, lt, ln⟩],
      st.links ++ [⟨pid, st.nodeIdCounter, lty, bt⟩], st.nodeIdCounter + 1⟩ ∧
    StepOk base ⟨vis, st.nodes ++ [⟨st.nodeIdCounter, ty, nm, cn, co, lt, ln⟩],
      st.links ++ [⟨pid, st.nodeIdCounter, lty, bt⟩], st.nodeIdCounter + 1⟩ := by
  obtain ⟨i1, i2, i3⟩ := hinv
  obtain ⟨c1, v1, ⟨ns1, hn1, hns1⟩, ⟨ls1, hl1, hls1⟩⟩ := hstep
  constructor
  · refine ⟨?_, ?_, ?_⟩
    · intro n hn
      rcases List.mem_append.mp hn with h | h
      · exact Nat.lt_succ_of_lt (i1 n h)
      · simp at h
        subst h
        exact Nat.lt_succ_self _
    · show ((st.nodes ++ _).map FlowNode.id).Pairwise _
      rw [List.map_append]
      refine List.pairwise_append.mpr ⟨i2, by simp, ?_⟩
      intro a ha b hb
      simp at hb
      subst hb
      exact nodeIds_lt_counter ⟨i1, i2, i3⟩ ha
    · intro l hl
      rcases List.mem_append.mp hl with h | h
      · obtain ⟨hs, ht⟩ := i3 l h
        constructor
        · show l.source ∈ (st.nodes ++ _).map FlowNode.id
          rw [List.map_append]
          exact List.mem_append_left _ hs
        · show l.target ∈ (st.nodes ++ _).map FlowNode.id
          rw [List.map_append]
          exact List.mem_append_left _ ht
      · simp at h
        subst h
        constructor
        · show pid ∈ (st.nodes ++ _).map FlowNode.id
          rw [List.map_append]
          exact List.mem_append_left _ hpid
        · show st.nodeIdCounter ∈ (st.nodes ++ _).map FlowNode.id
          rw [List.map_append]
          apply List.mem_append_right
          simp
  · refine ⟨le_trans c1 (Nat.le_succ _), fun x hx => hvis x (v1 x hx),
      ⟨ns1 ++ [⟨st.nodeIdCounter, ty, nm, cn, co, lt, ln⟩], ?_, ?_⟩,
      ⟨ls1 ++ [⟨pid, st.nodeIdCounter, lty, bt⟩], ?_, ?_⟩⟩
    · show st.nodes ++ _ = base.nodes ++ _
      rw [hn1, List.append_assoc]
    · intro n hn
      rcases List.mem_append.mp hn with h | h
      · exact hns1 n h
      · simp at h
        subst h
        exact ⟨c1, h1, h2⟩
    · show st.links ++ _ = base.links ++ _
      rw [hl1, List.append_assoc]
    · intro l hl
      rcases List.mem_append.mp hl with h | h
      · exact hls1 l h
      · simp at h
        subst h
        intro hty
        rcases hty with h | h
        · exact absurd h h3
        · exact absurd h h4

/-- Pushing a fresh node alone (the Merge node) preserves the invariant
and performs a step from any base state. -/
theorem push_node_only (base : TraceState) {st : TraceState} (hinv : TraceInv st)
    (hstep : StepOk base st) (ty : NodeType) (h1 : ty ≠ NodeType.start)
    (h2 : ty ≠ NodeType.«end») (nm : String) (cn co : Option String)
    (lt : Option LoopType) (ln : Option Nat) :
    TraceInv ⟨st.visited, st.nodes ++ [⟨st.nodeIdCounter, ty, nm, cn, co, lt, ln⟩],
      st.links, st.nodeIdCounter + 1⟩ ∧
    StepOk base ⟨st.visited, st.nodes ++ [⟨st.nodeIdCounter, ty, nm, cn, co, lt, ln⟩],
      st.links, st.nodeIdCounter + 1⟩ := by
  obtain ⟨i1, i2, i3⟩ := hinv
  obtain ⟨c1, v1, ⟨ns1, hn1, hns1⟩, ⟨ls1, hl1, hls1⟩⟩ := hstep
  constructor
  · refine ⟨?_, ?_, ?_⟩
    · intro n hn
      rcases List.mem_append.mp hn with h | h
      · exact Nat.lt_succ_of_lt (i1 n h)
      · simp at h
        subst h
        exact Nat.lt_succ_self _
    · show ((st.nodes ++ _).map FlowNode.id).Pairwise _
      rw [List.map_append]
      refine List.pairwise_append.mpr ⟨i2, by simp, ?_⟩
      intro a ha b hb
      simp at hb
      subst hb
      exact nodeIds_lt_counter ⟨i1, i2, i3⟩ ha
    · intro l hl
      obtain ⟨hs, ht⟩ := i3 l hl
      constructor
      · show l.source ∈ (st.nodes ++ _).map FlowNode.id
        rw [List.map_append]
        exact List.mem_append_left _ hs
      · show l.target ∈ (st.nodes ++ _).map FlowNode.id
        rw [List.map_append]
        exact List.mem_append_left _ ht
  · refine ⟨le_trans c1 (Nat.le_succ _), v1,
      ⟨ns1 ++ [⟨st.nodeIdCounter, ty, nm, cn, co, lt, ln⟩], ?_, ?_⟩,
      ⟨ls1, hl1, hls1⟩⟩
    · show st.nodes ++ _ = base.nodes ++ _
      rw [hn1, List.append_assoc]
    · intro n hn
      rcases List.mem_append.mp hn with h | h
      · exact hns1 n h
      · simp at h
        subst h
        exact ⟨c1, h1, h2⟩

/-- Pushing a link between existing nodes preserves the invariant and
performs a step, provided a branch edge leaves only from a node that is
fresh relative to the base state. -/
theorem push_link_only (base : TraceState) {st : TraceState} (hinv : TraceInv st)
    (hstep : StepOk base st) {src tgt : Nat} (hsrc : src ∈ nodeIds st)
    (htgt : tgt ∈ nodeIds st) (lty : LinkType) (bt : Option String)
    (hif : (lty = LinkType.if_true ∨ lty = LinkType.if_false) →
      base.nodeIdCounter ≤ src) :
    TraceInv ⟨st.visited, st.nodes, st.links ++ [⟨src, tgt, lty, bt⟩],
      st.nodeIdCounter⟩ ∧
    StepOk base ⟨st.visited, st.nodes, st.links ++ [⟨src, tgt, lty, bt⟩],
      st.nodeIdCounter⟩ := by
  obtain ⟨i1, i2, i3⟩ := hinv
  obtain ⟨c1, v1, ⟨ns1, hn1, hns1⟩, ⟨ls1, hl1, hls1⟩⟩ := hstep
  constructor
  · refine ⟨i1, i2, ?_⟩
    · intro l hl
      rcases List.mem_append.mp hl with h | h
      · exact i3 l h
      · simp at h
        subst h
        exact ⟨hsrc, htgt⟩
  · refine ⟨c1, v1, ⟨ns1, hn1, hns1⟩, ⟨ls1 ++ [⟨src, tgt, lty, bt⟩], ?_, ?_⟩⟩
    · show st.links ++ _ = base.links ++ _
      rw [hl1, List.append_assoc]
    · intro l hl
      rcases List.mem_append.mp hl with h | h
      · exact hls1 l h
      · simp at h
        subst h
        exact hif

mutual

theorem processStmts_ok (fm : FuncMap) (recur : TraceFn) (hrec : RecurOk recur)
    (stmts : List Statement) (pid : Nat) (st : TraceState)
    (hinv : TraceInv st) (hpid : pid ∈ nodeIds st) (r : Nat) (stF : TraceState)
    (h : processStmts fm recur stmts pid st = TraceResult.ok r stF) :
    TraceInv stF ∧ StepOk st stF ∧ r ∈ nodeIds stF ∧
      (r = pid ∨ st.nodeIdCounter ≤ r) := by
  cases stmts with
  | nil =>
    simp only [processStmts, TraceResult.ok.injEq] at h
    obtain ⟨rfl, rfl⟩ := h
    exact ⟨hinv, stepOk_rfl st, hpid, Or.inl rfl⟩
  | cons stmt rest =>
    simp only [processStmts] at h
    split at h
    · exact TraceResult.noConfusion h
    · exact TraceResult.noConfusion h
    · rename_i nid st1 h1
      obtain ⟨hinv1, hstep1, hmem1, hfresh1⟩ :=
        processStatement_ok fm recur hrec stmt pid st hinv hpid nid st1 h1
      obtain ⟨hinv2, hstep2, hmem2, hr2⟩ :=
        processStmts_ok fm recur hrec rest nid st1 hinv1 hmem1 r stF h
      refine ⟨hinv2, stepOk_trans hstep1 hstep2, hmem2, Or.inr ?_⟩
      rcases hr2 with rfl | h3
      · exact hfresh1
      · exact le_trans hstep1.1 h3

theorem processStatement_ok (fm : FuncMap) (recur : TraceFn) (hrec : RecurOk recur)
    (stmt : Statement) (pid : Nat) (st : TraceState)
    (hinv : TraceInv st) (hpid : pid ∈ nodeIds st) (r : Nat) (stF : TraceState)
    (h : processStatement fm recur stmt pid st = TraceResult.ok r stF) :
    TraceInv stF ∧ StepOk st stF ∧ r ∈ nodeIds stF ∧ st.nodeIdCounter ≤ r := by
  cases stmt with
  | method_call name ln =>
    simp only [processStatement] at h
    split at h
    · rename_i stl hf
      exact (hrec (resolveFullMethodName fm name) pid st r stF hinv hpid h).imp
        id (fun x => x)
    · rename_i hf
      exact (hrec (resolveFullMethodName fm name) pid st r stF hinv hpid h).imp
        id (fun x => x)
    · rename_i hf
      simp only [TraceResult.ok.injEq] at h
      obtain ⟨rfl, rfl⟩ := h
      have hp := push_node_link st hinv (stepOk_rfl st) NodeType.method
        (by decide) (by decide) name none none none (some ln) hpid
        LinkType.calls (by decide) (by decide) none st.visited (fun x hx => hx)
      refine ⟨hp.1, hp.2, ?_, le_rfl⟩
      show st.nodeIdCounter ∈ (st.nodes ++ _).map FlowNode.id
      rw [List.map_append]
      apply List.mem_append_right
      simp
  | loop_statement lt c ln body =>
    simp only [processStatement] at h
    split at h
    · exact TraceResult.noConfusion h
    · exact TraceResult.noConfusion h
    · rename_i bodyEnd st2 hbody
      have hp1 := push_node_link st hinv (stepOk_rfl st) NodeType.loop
        (by decide) (by decide) (loopTypeUpper lt ++ " Loop") none (some c)
        (some lt) (some ln) hpid LinkType.sequence (by decide) (by decide)
        none st.visited (fun x hx => hx)
      have hloopmem : st.nodeIdCounter ∈ nodeIds
          ⟨st.visited,
            st.nodes ++ [⟨st.nodeIdCounter, NodeType.loop,
              loopTypeUpper lt ++ " Loop", none, some c, some lt, some ln⟩],
            st.links ++ [⟨pid, st.nodeIdCounter, LinkType.sequence, none⟩],
            st.nodeIdCounter + 1⟩ := by
        show st.nodeIdCounter ∈ (st.nodes ++ _).map FlowNode.id
        rw [List.map_append]
        apply List.mem_append_right
        simp
      obtain ⟨hinv2, hstep2, hmem2, hr2⟩ :=
        processStmts_ok fm recur hrec body st.nodeIdCounter _ hp1.1 hloopmem
          bodyEnd st2 hbody
      have hstep02 : StepOk st st2 := stepOk_trans hp1.2 hstep2
      have hloopmem2 : st.nodeIdCounter ∈ nodeIds st2 :=
        mem_nodeIds_of_stepOk hstep2 hloopmem
      -- split on the back-edge condition inside h
      split at h
      all_goals rename_i hback
      · -- bodyEnd ≠ loop id: a back link is pushed
        have hbe : bodyEnd ∈ nodeIds st2 := hmem2
        have hp3 := push_link_only st hinv2 hstep02 hbe hloopmem2
          LinkType.loop_exit none (by intro hx; rcases hx with hx | hx <;> exact absurd hx (by decide))
        have hloopmem3 : st.nodeIdCounter ∈ nodeIds
            ⟨st2.visited, st2.nodes,
              st2.links ++ [⟨bodyEnd, st.nodeIdCounter, LinkType.loop_exit, none⟩],
              st2.nodeIdCounter⟩ := hloopmem2
        have hp4 := push_node_link st hp3.1 hp3.2 NodeType.method
          (by decide) (by decide) "Loop Exit" none none none none
          hloopmem3 LinkType.loop_exit (by decide) (by decide)
          none st2.visited (fun x hx => hx)
        simp only [TraceResult.ok.injEq] at h
        obtain ⟨rfl, rfl⟩ := h
        refine ⟨hp4.1, hp4.2, ?_, ?_⟩
        · show _ ∈ (st2.nodes ++ _).map FlowNode.id
          rw [List.map_append]
          apply List.mem_append_right
          simp
        · exact hstep02.1
      · -- bodyEnd = loop id: no back link
        have hp4 := push_node_link st hinv2 hstep02 NodeType.method
          (by decide) (by decide) "Loop Exit" none none none none
          hloopmem2 LinkType.loop_exit (by decide) (by decide)
          none st2.visited (fun x hx => hx)
        simp only [TraceResult.ok.injEq] at h
        obtain ⟨rfl, rfl⟩ := h
        refine ⟨hp4.1, hp4.2, ?_, ?_⟩
        · show _ ∈ (st2.nodes ++ _).map FlowNode.id
          rw [List.map_append]
          apply List.mem_append_right
          simp
        · exact hstep02.1
  | if_statement c ln tb fb =>
    simp only [processStatement] at h
    split at h
    · exact TraceResult.noConfusion h
    · exact TraceResult.noConfusion h
    · rename_i tEnd st2 htb
      split at h
      · exact TraceResult.noConfusion h
      · exact TraceResult.noConfusion h
      · rename_i fEnd st3 hfb
        have hp1 := push_node_link st hinv (stepOk_rfl st)
          NodeType.decision (by decide) (by decide) "Decision" none (some c)
          none (some ln) hpid LinkType.sequence (by decide) (by decide)
          none st.visited (fun x hx => hx)
        have hdecmem : st.nodeIdCounter ∈ nodeIds
            ⟨st.visited,
              st.nodes ++ [⟨st.nodeIdCounter, NodeType.decision, "Decision",
                none, some c, none, some ln⟩],
              st.links ++ [⟨pid, st.nodeIdCounter, LinkType.sequence, none⟩],
              st.nodeIdCounter + 1⟩ := by
          show st.nodeIdCounter ∈ (st.nodes ++ _).map FlowNode.id
          rw [List.map_append]
          apply List.mem_append_right
          simp
        obtain ⟨hinv2, hstep2, hmem2, hr2⟩ :=
          processStmts_ok fm recur hrec tb st.nodeIdCounter _ hp1.1 hdecmem
            tEnd st2 htb
        have hdecmem2 : st.nodeIdCounter ∈ nodeIds st2 :=
          mem_nodeIds_of_stepOk hstep2 hdecmem
        obtain ⟨hinv3, hstep3, hmem3, hr3⟩ :=
          processStmts_ok fm recur hrec fb st.nodeIdCounter st2 hinv2 hdecmem2
            fEnd st3 hfb
        have hstep03 : StepOk st st3 :=
          stepOk_trans hp1.2 (stepOk_trans hstep2 hstep3)
        have hdecmem3 : st.nodeIdCounter ∈ nodeIds st3 :=
          mem_nodeIds_of_stepOk hstep3 hdecmem2
        have htmem3 : tEnd ∈ nodeIds st3 := mem_nodeIds_of_stepOk hstep3 hmem2
        split at h
        · rename_i hcond
          simp only [TraceResult.ok.injEq] at h
          obtain ⟨rfl, rfl⟩ := h
          have hm := push_node_only st hinv3 hstep03 NodeType.method
            (by decide) (by decide) "Merge" none none none none
          have hmergemem : st3.nodeIdCounter ∈ nodeIds
              ⟨st3.visited,
                st3.nodes ++ [⟨st3.nodeIdCounter, NodeType.method, "Merge",
                  none, none, none, none⟩],
                st3.links, st3.nodeIdCounter + 1⟩ := by
            show st3.nodeIdCounter ∈ (st3.nodes ++ _).map FlowNode.id
            rw [List.map_append]
            apply List.mem_append_right
            simp
          have hdecmem4 : st.nodeIdCounter ∈ nodeIds
              ⟨st3.visited,
                st3.nodes ++ [⟨st3.nodeIdCounter, NodeType.method, "Merge",
                  none, none, none, none⟩],
                st3.links, st3.nodeIdCounter + 1⟩ := by
            show st.nodeIdCounter ∈ (st3.nodes ++ _).map FlowNode.id
            rw [List.map_append]
            exact List.mem_append_left _ hdecmem3
          have htmem4 : tEnd ∈ nodeIds
              ⟨st3.visited,
                st3.nodes ++ [⟨st3.nodeIdCounter, NodeType.method, "Merge",
                  none, none, none, none⟩],
                st3.links, st3.nodeIdCounter + 1⟩ := by
            show tEnd ∈ (st3.nodes ++ _).map FlowNode.id
            rw [List.map_append]
            exact List.mem_append_left _ htmem3
          have hfmem4 : fEnd ∈ nodeIds
              ⟨st3.visited,
                st3.nodes ++ [⟨st3.nodeIdCounter, NodeType.method, "Merge",
                  none, none, none, none⟩],
                st3.links, st3.nodeIdCounter + 1⟩ := by
            show fEnd ∈ (st3.nodes ++ _).map FlowNode.id
            rw [List.map_append]
            exact List.mem_append_left _ hmem3
          by_cases ht0 : tb.length > 0
          · by_cases hte : tEnd = st.nodeIdCounter
            · -- if_true edge goes to the merge node; no true sequence edge
              have hl1 := push_link_only st hm.1 hm.2 hdecmem4
                hmergemem LinkType.if_true (some "true") (fun _ => le_rfl)
              by_cases hf0 : fb.length > 0
              · by_cases hfe : fEnd = st.nodeIdCounter
                · have hl2 := push_link_only st hl1.1 hl1.2 hdecmem4
                    hmergemem LinkType.if_false (some "false") (fun _ => le_rfl)
                  simp only [ht0, hte, hf0, hfe, if_true, if_false, ne_eq,
                    not_true_eq_false, beq_self_eq_true, decide_eq_true_eq, ite_true,
                    ite_false, gt_iff_lt, decide_eq_true_eq] at *
                  exact ⟨hl2.1, hl2.2, hmergemem, hstep03.1⟩
                · have hl2 := push_link_only st hl1.1 hl1.2 hdecmem4
                    hfmem4 LinkType.if_false (some "false") (fun _ => le_rfl)
                  have hl3 := push_link_only st hl2.1 hl2.2 hfmem4
                    hmergemem LinkType.sequence none
                    (by intro hx; rcases hx with hx | hx <;> exact absurd hx (by decide))
                  simp only [ht0, hte, hf0, hfe, if_true, if_false, ne_eq,
                    not_true_eq_false, not_false_eq_true, beq_self_eq_true,
                    decide_eq_true_eq, ite_true, ite_false, gt_iff_lt,
                    decide_eq_true_eq, beq_iff_eq] at *
                  exact ⟨hl3.1, hl3.2, hmergemem, hstep03.1⟩
              · simp only [ht0, hte, hf0, if_true, if_false, ne_eq,
                  not_true_eq_false, beq_self_eq_true, decide_eq_true_eq, ite_true,
                  ite_false, gt_iff_lt, decide_eq_true_eq] at *
                exact ⟨hl1.1, hl1.2, hmergemem, hstep03.1⟩
            · -- if_true edge goes to the true terminal; true sequence edge
              have hl1 := push_link_only st hm.1 hm.2 hdecmem4
                htmem4 LinkType.if_true (some "true") (fun _ => le_rfl)
              have hl2 := push_link_only st hl1.1 hl1.2 htmem4
                hmergemem LinkType.sequence none
                (by intro hx; rcases hx with hx | hx <;> exact absurd hx (by decide))
              by_cases hf0 : fb.length > 0
              · by_cases hfe : fEnd = st.nodeIdCounter
                · have hl3 := push_link_only st hl2.1 hl2.2 hdecmem4
                    hmergemem LinkType.if_false (some "false") (fun _ => le_rfl)
                  simp only [ht0, hte, hf0, hfe, if_true, if_false, ne_eq,
                    not_true_eq_false, not_false_eq_true, beq_self_eq_true,
                    decide_eq_true_eq, ite_true, ite_false, gt_iff_lt,
                    decide_eq_true_eq, beq_iff_eq] at *
                  exact ⟨hl3.1, hl3.2, hmergemem, hstep03.1⟩
                · have hl3 := push_link_only st hl2.1 hl2.2 hdecmem4
                    hfmem4 LinkType.if_false (some "false") (fun _ => le_rfl)
                  have hl4 := push_link_only st hl3.1 hl3.2 hfmem4
                    hmergemem LinkType.sequence none
                    (by intro hx; rcases hx with hx | hx <;> exact absurd hx (by decide))
                  simp only [ht0, hte, hf0, hfe, if_true, if_false, ne_eq,
                    not_true_eq_false, not_false_eq_true, beq_self_eq_true,
                    decide_eq_true_eq, ite_true, ite_false, gt_iff_lt,
                    decide_eq_true_eq, beq_iff_eq] at *
                  exact ⟨hl4.1, hl4.2, hmergemem, hstep03.1⟩
              · simp only [ht0, hte, hf0, if_true, if_false, ne_eq,
                  not_true_eq_false, not_false_eq_true, beq_self_eq_true,
                  decide_eq_true_eq, ite_true, ite_false, gt_iff_lt,
                  decide_eq_true_eq, beq_iff_eq] at *
                exact ⟨hl2.1, hl2.2, hmergemem, hstep03.1⟩
          · by_cases hf0 : fb.length > 0
            · by_cases hfe : fEnd = st.nodeIdCounter
              · have hl1 := push_link_only st hm.1 hm.2 hdecmem4
                  hmergemem LinkType.if_false (some "false") (fun _ => le_rfl)
                simp only [ht0, hf0, hfe, if_true, if_false, ne_eq,
                  not_true_eq_false, not_false_eq_true, beq_self_eq_true,
                  decide_eq_true_eq, ite_true, ite_false, gt_iff_lt,
                  decide_eq_true_eq, beq_iff_eq] at *
                exact ⟨hl1.1, hl1.2, hmergemem, hstep03.1⟩
              · have hl1 := push_link_only st hm.1 hm.2 hdecmem4
                  hfmem4 LinkType.if_false (some "false") (fun _ => le_rfl)
                have hl2 := push_link_only st hl1.1 hl1.2 hfmem4
                  hmergemem LinkType.sequence none
                  (by intro hx; rcases hx with hx | hx <;> exact absurd hx (by decide))
                simp only [ht0, hf0, hfe, if_true, if_false, ne_eq,
                  not_true_eq_false, not_false_eq_true, beq_self_eq_true,
                  decide_eq_true_eq, ite_true, ite_false, gt_iff_lt,
                  decide_eq_true_eq, beq_iff_eq] at *
                exact ⟨hl2.1, hl2.2, hmergemem, hstep03.1⟩
            · exfalso
              simp [ht0, hf0] at hcond
        · rename_i hcond
          simp only [TraceResult.ok.injEq] at h
          obtain ⟨rfl, rfl⟩ := h
          exact ⟨hinv3, hstep03, hdecmem3, le_rfl⟩

end

theorem traceMethod_ok (fm : FuncMap) : ∀ fuel, RecurOk (traceMethod fm fuel) := by
  intro fuel
  induction fuel with
  | zero =>
    intro name pid st r stF hinv hpid h
    exact TraceResult.noConfusion h
  | succ fuel ih =>
    intro name pid st r stF hinv hpid h
    simp only [traceMethod] at h
    split at h
    · rename_i hvis
      simp only [TraceResult.ok.injEq] at h
      obtain ⟨rfl, rfl⟩ := h
      have hp := push_node_link st hinv (stepOk_rfl st)
        NodeType.method (by decide) (by decide) (name ++ " (ref)")
        (some (extractClassName name)) none none none hpid
        LinkType.calls (by decide) (by decide) none st.visited (fun x hx => hx)
      refine ⟨hp.1, hp.2, ?_, le_rfl⟩
      show st.nodeIdCounter ∈ (st.nodes ++ _).map FlowNode.id
      rw [List.map_append]
      apply List.mem_append_right
      simp
    · rename_i hvis
      have hp := push_node_link st hinv (stepOk_rfl st)
        NodeType.method (by decide) (by decide) (extractMethodName name)
        (some (extractClassName name)) none none none hpid
        LinkType.calls (by decide) (by decide) none (name :: st.visited)
        (fun x hx => List.mem_cons_of_mem _ hx)
      have hmm : st.nodeIdCounter ∈ nodeIds
          ⟨name :: st.visited,
            st.nodes ++ [⟨st.nodeIdCounter, NodeType.method,
              extractMethodName name, some (extractClassName name),
              none, none, none⟩],
            st.links ++ [⟨pid, st.nodeIdCounter, LinkType.calls, none⟩],
            st.nodeIdCounter + 1⟩ := by
        show st.nodeIdCounter ∈ (st.nodes ++ _).map FlowNode.id
        rw [List.map_append]
        apply List.mem_append_right
        simp
      split at h
      · rename_i stl hfind
        obtain ⟨hinv2, hstep2, hmem2, hr2⟩ :=
          processStmts_ok fm (traceMethod fm fuel) ih
            stl st.nodeIdCounter _ hp.1 hmm r stF h
        refine ⟨hinv2, stepOk_trans hp.2 hstep2, hmem2, ?_⟩
        rcases hr2 with rfl | h3
        · exact le_rfl
        · exact le_trans (Nat.le_succ _) h3
      · exact TraceResult.noConfusion h
      · rename_i hfind
        obtain ⟨hinv2, hstep2, hmem2, hr2⟩ :=
          processStmts_ok fm (traceMethod fm fuel) ih
            [] st.nodeIdCounter _ hp.1 hmm r stF h
        refine ⟨hinv2, stepOk_trans hp.2 hstep2, hmem2, ?_⟩
        rcases hr2 with rfl | h3
        · exact le_rfl
        · exact le_trans (Nat.le_succ _) h3

/-- The first node a returning `traceMethod` call emits — at the entry
counter value — is Method-typed (the reference node or the method node)
and survives into the final state. -/
theorem traceMethod_first_node (fm : FuncMap) (fuel : Nat) (mname : String)
    (pid : Nat) (st : TraceState) (hinv : TraceInv st)
    (hpid : pid ∈ nodeIds st) (nid : Nat) (stF : TraceState)
    (h : traceMethod fm fuel mname pid st = TraceResult.ok nid stF) :
    ∃ n, n ∈ stF.nodes ∧ n.id = st.nodeIdCounter ∧
      n.type = NodeType.method := by
  cases fuel with
  | zero => exact TraceResult.noConfusion h
  | succ fuel1 =>
    simp only [traceMethod] at h
    split at h
    · rename_i hvis
      simp only [TraceResult.ok.injEq] at h
      obtain ⟨rfl, rfl⟩ := h
      refine ⟨⟨st.nodeIdCounter, NodeType.method, mname ++ " (ref)",
        some (extractClassName mname), none, none, none⟩, ?_, rfl, rfl⟩
      show _ ∈ st.nodes ++ [_]
      apply List.mem_append_right
      simp
    · rename_i hvis
      have hp := push_node_link st hinv (stepOk_rfl st)
        NodeType.method (by decide) (by decide) (extractMethodName mname)
        (some (extractClassName mname)) none none none hpid
        LinkType.calls (by decide) (by decide) none (mname :: st.visited)
        (fun x hx => List.mem_cons_of_mem _ hx)
      have hmm : st.nodeIdCounter ∈ nodeIds
          ⟨mname :: st.visited,
            st.nodes ++ [⟨st.nodeIdCounter, NodeType.method,
              extractMethodName mname, some (extractClassName mname),
              none, none, none⟩],
            st.links ++ [⟨pid, st.nodeIdCounter, LinkType.calls, none⟩],
            st.nodeIdCounter + 1⟩ := by
        show st.nodeIdCounter ∈ (st.nodes ++ _).map FlowNode.id
        rw [List.map_append]
        apply List.mem_append_right
        simp
      split at h
      · rename_i stl hfind
        obtain ⟨_, hstep2, _, _⟩ :=
          processStmts_ok fm (traceMethod fm fuel1) (traceMethod_ok fm fuel1)
            stl st.nodeIdCounter _ hp.1 hmm nid stF h
        obtain ⟨ns, hn, _⟩ := hstep2.2.2.1
        refine ⟨⟨st.nodeIdCounter, NodeType.method, extractMethodName mname,
          some (extractClassName mname), none, none, none⟩, ?_, rfl, rfl⟩
        rw [hn]
        apply List.mem_append_left
        apply List.mem_append_right
        exact List.mem_singleton.mpr rfl
      · exact TraceResult.noConfusion h
      · rename_i hfind
        obtain ⟨_, hstep2, _, _⟩ :=
          processStmts_ok fm (traceMethod fm fuel1) (traceMethod_ok fm fuel1)
            [] st.nodeIdCounter _ hp.1 hmm nid stF h
        obtain ⟨ns, hn, _⟩ := hstep2.2.2.1
        refine ⟨⟨st.nodeIdCounter, NodeType.method, extractMethodName mname,
          some (extractClassName mname), none, none, none⟩, ?_, rfl, rfl⟩
        rw [hn]
        apply List.mem_append_left
        apply List.mem_append_right
        exact List.mem_singleton.mpr rfl

mutual

theorem processStmts_total (fm : FuncMap) (recur : TraceFn) (B : Nat)
    (hrecOk : RecurOk recur)
    (hrecTot : ∀ name pid1 st1, TraceInv st1 → pid1 ∈ nodeIds st1 →
      unvis fm st1.visited ≤ B → recur name pid1 st1 ≠ TraceResult.outOfFuel)
    (stmts : List Statement) (pid : Nat) (st : TraceState)
    (hinv : TraceInv st) (hpid : pid ∈ nodeIds st)
    (hB : unvis fm st.visited ≤ B) :
    processStmts fm recur stmts pid st ≠ TraceResult.outOfFuel := by
  cases stmts with
  | nil =>
    simp only [processStmts]
    intro hc
    exact TraceResult.noConfusion hc
  | cons stmt rest =>
    have h1 := processStatement_total fm recur B hrecOk hrecTot stmt pid st
      hinv hpid hB
    rcases traceResult_cases _ h1 with ⟨nid, st1, hp⟩ | hp
    · obtain ⟨hinv1, hstep1, hmem1, _⟩ :=
        processStatement_ok fm recur hrecOk stmt pid st hinv hpid nid st1 hp
      have hB1 : unvis fm st1.visited ≤ B :=
        le_trans (unvis_mono fm hstep1.2.1) hB
      have h2 := processStmts_total fm recur B hrecOk hrecTot rest nid st1
        hinv1 hmem1 hB1
      simp only [processStmts, hp]
      exact h2
    · simp only [processStmts, hp]
      intro hc
      exact TraceResult.noConfusion hc

theorem processStatement_total (fm : FuncMap) (recur : TraceFn) (B : Nat)
    (hrecOk : RecurOk recur)
    (hrecTot : ∀ name pid1 st1, TraceInv st1 → pid1 ∈ nodeIds st1 →
      unvis fm st1.visited ≤ B → recur name pid1 st1 ≠ TraceResult.outOfFuel)
    (stmt : Statement) (pid : Nat) (st : TraceState)
    (hinv : TraceInv st) (hpid : pid ∈ nodeIds st)
    (hB : unvis fm st.visited ≤ B) :
    processStatement fm recur stmt pid st ≠ TraceResult.outOfFuel := by
  cases stmt with
  | method_call name ln =>
    simp only [processStatement]
    cases hf : FuncMap.find fm (resolveFullMethodName fm name) with
    | statements stl =>
      exact hrecTot _ pid st hinv hpid hB
    | inherited =>
      exact hrecTot _ pid st hinv hpid hB
    | undefined =>
      intro hc
      exact TraceResult.noConfusion hc
  | if_statement c ln tb fb =>
    simp only [processStatement]
    have hp1 := push_node_link st hinv (stepOk_rfl st)
      NodeType.decision (by decide) (by decide) "Decision" none (some c)
      none (some ln) hpid LinkType.sequence (by decide) (by decide)
      none st.visited (fun x hx => hx)
    have hdecmem : st.nodeIdCounter ∈ nodeIds
        ⟨st.visited,
          st.nodes ++ [⟨st.nodeIdCounter, NodeType.decision, "Decision",
            none, some c, none, some ln⟩],
          st.links ++ [⟨pid, st.nodeIdCounter, LinkType.sequence, none⟩],
          st.nodeIdCounter + 1⟩ := by
      show st.nodeIdCounter ∈ (st.nodes ++ _).map FlowNode.id
      rw [List.map_append]
      apply List.mem_append_right
      simp
    have h1 := processStmts_total fm recur B hrecOk hrecTot tb
      st.nodeIdCounter _ hp1.1 hdecmem hB
    rcases traceResult_cases _ h1 with ⟨tEnd, st2, htb⟩ | htb
    · obtain ⟨hinv2, hstep2, hmem2, _⟩ :=
        processStmts_ok fm recur hrecOk tb st.nodeIdCounter _ hp1.1 hdecmem
          tEnd st2 htb
      have hdecmem2 : st.nodeIdCounter ∈ nodeIds st2 :=
        mem_nodeIds_of_stepOk hstep2 hdecmem
      have hB2 : unvis fm st2.visited ≤ B :=
        le_trans (unvis_mono fm hstep2.2.1) hB
      have h2 := processStmts_total fm recur B hrecOk hrecTot fb
        st.nodeIdCounter st2 hinv2 hdecmem2 hB2
      rcases traceResult_cases _ h2 with ⟨fEnd, st3, hfb⟩ | hfb
      · rw [htb]
        dsimp only
        rw [hfb]
        dsimp only
        split
        all_goals intro hc
        all_goals exact TraceResult.noConfusion hc
      · rw [htb]
        dsimp only
        rw [hfb]
        intro hc
        exact TraceResult.noConfusion hc
    · rw [htb]
      intro hc
      exact TraceResult.noConfusion hc
  | loop_statement lt c ln body =>
    simp only [processStatement]
    have hp1 := push_node_link st hinv (stepOk_rfl st) NodeType.loop
      (by decide) (by decide) (loopTypeUpper lt ++ " Loop") none (some c)
      (some lt) (some ln) hpid LinkType.sequence (by decide) (by decide)
      none st.visited (fun x hx => hx)
    have hloopmem : st.nodeIdCounter ∈ nodeIds
        ⟨st.visited,
          st.nodes ++ [⟨st.nodeIdCounter, NodeType.loop,
            loopTypeUpper lt ++ " Loop", none, some c, some lt, some ln⟩],
          st.links ++ [⟨pid, st.nodeIdCounter, LinkType.sequence, none⟩],
          st.nodeIdCounter + 1⟩ := by
      show st.nodeIdCounter ∈ (st.nodes ++ _).map FlowNode.id
      rw [List.map_append]
      apply List.mem_append_right
      simp
    have h1 := processStmts_total fm recur B hrecOk hrecTot body
      st.nodeIdCounter _ hp1.1 hloopmem hB
    rcases traceResult_cases _ h1 with ⟨bodyEnd, st2, hbody⟩ | hbody
    · rw [hbody]
      dsimp only
      split
      all_goals intro hc
      all_goals exact TraceResult.noConfusion hc
    · rw [hbody]
      intro hc
      exact TraceResult.noConfusion hc

end

theorem traceMethod_total (fm : FuncMap) :
    ∀ fuel name pid st, TraceInv st → pid ∈ nodeIds st →
      unvis fm st.visited < fuel →
      traceMethod fm fuel name pid st ≠ TraceResult.outOfFuel := by
  intro fuel
  induction fuel with
  | zero =>
    intro name pid st _ _ hlt
    exact absurd hlt (Nat.not_lt_zero _)
  | succ fuel ih =>
    intro name pid st hinv hpid hlt
    simp only [traceMethod]
    split
    · intro hc
      exact TraceResult.noConfusion hc
    · rename_i hvis
      have hp := push_node_link st hinv (stepOk_rfl st)
        NodeType.method (by decide) (by decide) (extractMethodName name)
        (some (extractClassName name)) none none none hpid
        LinkType.calls (by decide) (by decide) none (name :: st.visited)
        (fun x hx => List.mem_cons_of_mem _ hx)
      have hmm : st.nodeIdCounter ∈ nodeIds
          ⟨name :: st.visited,
            st.nodes ++ [⟨st.nodeIdCounter, NodeType.method,
              extractMethodName name, some (extractClassName name),
              none, none, none⟩],
            st.links ++ [⟨pid, st.nodeIdCounter, LinkType.calls, none⟩],
            st.nodeIdCounter + 1⟩ := by
        show st.nodeIdCounter ∈ (st.nodes ++ _).map FlowNode.id
        rw [List.map_append]
        apply List.mem_append_right
        simp
      cases hfind : FuncMap.find fm name with
      | statements stl =>
        have hk : name ∈ FuncMap.keys fm :=
          key_of_find_statements fm name stl hfind
        have hdec := unvis_cons_lt fm name st.visited hk hvis
        have hu1 : 1 ≤ unvis fm st.visited := by omega
        have hfge : 1 ≤ fuel := by omega
        apply processStmts_total fm (traceMethod fm fuel) (fuel - 1)
          (traceMethod_ok fm fuel) ?_ _ st.nodeIdCounter _ hp.1 hmm ?_
        · intro name1 pid1 st1 hinv1 hpid1 hB1
          exact ih name1 pid1 st1 hinv1 hpid1 (by omega)
        · show unvis fm (name :: st.visited) ≤ fuel - 1
          omega
      | inherited =>
        intro hc
        exact TraceResult.noConfusion hc
      | undefined =>
        intro hc
        exact TraceResult.noConfusion hc

theorem initialState_inv : TraceInv initialState := by
  refine ⟨?_, ?_, ?_⟩
  · intro n hn
    simp [initialState, startNode] at hn
    subst hn
    decide
  · simp [initialState, nodeIds, startNode]
  · intro l hl
    simp [initialState] at hl

theorem run_not_outOfFuel (fm : FuncMap) (e : String) :
    traceFromEntryMethodRun fm e ≠ TraceOutcome.outOfFuel := by
  have h0 : startNode.id ∈ nodeIds initialState := by
    simp [initialState, nodeIds, startNode]
  have hlt : unvis fm initialState.visited < List.length fm + 1 :=
    Nat.lt_succ_of_le (unvis_le_length fm _)
  have hs := traceMethod_total fm (List.length fm + 1) e startNode.id
    initialState initialState_inv h0 hlt
  unfold traceFromEntryMethodRun
  rcases traceResult_cases _ hs with ⟨r, st2, hp⟩ | hp
  · rw [hp]
    intro hc
    exact TraceOutcome.noConfusion hc
  · rw [hp]
    intro hc
    exact TraceOutcome.noConfusion hc

theorem run_graph_spec (fm : FuncMap) (e : String) (g : CallFlowGraph)
    (h : traceFromEntryMethodRun fm e = TraceOutcome.graph g) :
    ∃ r st2,
      traceMethod fm (List.length fm + 1) e startNode.id initialState =
        TraceResult.ok r st2 ∧
      TraceInv st2 ∧ StepOk initialState st2 ∧
      g = ⟨st2.nodes ++ [⟨st2.nodeIdCounter, NodeType.«end», "END",
        none, none, none, none⟩], st2.links, e⟩ := by
  have h0 : startNode.id ∈ nodeIds initialState := by
    simp [initialState, nodeIds, startNode]
  unfold traceFromEntryMethodRun at h
  cases hp : traceMethod fm (List.length fm + 1) e startNode.id initialState with
  | ok r st2 =>
    simp only [hp] at h
    obtain ⟨hinv2, hstep2, _, _⟩ := traceMethod_ok fm (List.length fm + 1) e
      startNode.id initialState r st2 initialState_inv h0 hp
    simp only [TraceOutcome.graph.injEq] at h
    exact ⟨r, st2, rfl, hinv2, hstep2, h.symm⟩
  | typeError =>
    simp only [hp] at h
    exact TraceOutcome.noConfusion h
  | outOfFuel =>
    simp only [hp] at h
    exact TraceOutcome.noConfusion h

theorem traceFromEntryMethod_eq_of_graph (fm : FuncMap) (e : String)
    (g : CallFlowGraph)
    (h : traceFromEntryMethodRun fm e = TraceOutcome.graph g) :
    traceFromEntryMethod fm e = g := by
  unfold traceFromEntryMethod
  rw [h]

theorem run_cases (fm : FuncMap) (e : String) :
    traceFromEntryMethodRun fm e =
      TraceOutcome.graph (traceFromEntryMethod fm e) ∨
    (traceFromEntryMethodRun fm e = TraceOutcome.typeError ∧
      traceFromEntryMethod fm e = placeholderGraph e) := by
  have hnf := run_not_outOfFuel fm e
  cases hg : traceFromEntryMethodRun fm e with
  | graph g =>
    left
    rw [traceFromEntryMethod_eq_of_graph fm e g hg]
  | typeError =>
    right
    refine ⟨rfl, ?_⟩
    simp only [traceFromEntryMethod, hg]
  | outOfFuel => exact absurd hg hnf

theorem placeholderGraph_wellformed (e : String) :
    ((placeholderGraph e).nodes.map FlowNode.id).Pairwise (fun a b => a < b) ∧
    ((placeholderGraph e).nodes.map FlowNode.id).Nodup ∧
    (placeholderGraph e).nodes.getLast? =
      some ⟨1, NodeType.«end», "END", none, none, none, none⟩ ∧
    ((placeholderGraph e).nodes.filter
      (fun n => n.type == NodeType.«end»)).length = 1 ∧
    (placeholderGraph e).links = [] := by
  refine ⟨?_, ?_, rfl, rfl, rfl⟩ <;> simp [placeholderGraph, startNode]

/-- C6 (amended): call resolution returns the first key in map iteration
order that either ends in `.calleeName` or equals `calleeName` exactly —
one pass with no priority between suffix and exact matches — falling back
to the bare callee name when no key matches. -/
theorem resolve_first_match_policy (fm : FuncMap) (methodName : String) :
    resolveFullMethodName fm methodName =
      ((FuncMap.keys fm).find? (fun key =>
        strEndsWith key ("." ++ methodName) || key == methodName)).getD
        methodName := by
  unfold resolveFullMethodName
  simp only []
  rw [head?_filter_eq_find?]

/-- C6 (counterexample): over the map with keys `foo` then `A.foo`, the
bare callee `foo` resolves to the exact-match key `foo` even though the
suffix-matching key `A.foo` exists, contradicting the claim that suffix
matches are tried first. -/
theorem resolve_suffix_priority_counterexample :
    resolveFullMethodName suffixExampleMap "foo" = "foo" ∧
    "A.foo" ∈ FuncMap.keys suffixExampleMap ∧
    strEndsWith "A.foo" (".foo") = true ∧
    strEndsWith "foo" (".foo") = false := by
  decide

/-- C9 (amended): `getAvailableEntryMethods` returns exactly the keys
whose full text (class portion included) contains one of the lifecycle
substrings; over `MainActivity.onCreate` and `Utils.helper` it returns
exactly `MainActivity.onCreate`. -/
theorem entry_methods_whole_key :
    (∀ (fm : FuncMap) (k : String),
      k ∈ getAvailableEntryMethods fm ↔
        k ∈ FuncMap.keys fm ∧ ∃ pat ∈ entryPatterns, pat.data <:+: k.data) ∧
    getAvailableEntryMethods lifecycleExampleMap = ["MainActivity.onCreate"] := by
  constructor
  · intro fm k
    unfold getAvailableEntryMethods
    rw [List.mem_filter]
    constructor
    · rintro ⟨hk, hany⟩
      refine ⟨hk, ?_⟩
      obtain ⟨pat, hpat, hinc⟩ := List.any_eq_true.mp hany
      exact ⟨pat, hpat, (charsInclude_iff _ _).mp hinc⟩
    · rintro ⟨hk, pat, hpat, hinf⟩
      exact ⟨hk, List.any_eq_true.mpr
        ⟨pat, hpat, (charsInclude_iff _ _).mpr hinf⟩⟩
  · decide

/-- C9 (counterexample): the key `onCreateX.foo` is returned by
`getAvailableEntryMethods` although its method-name portion `foo`
contains none of the lifecycle substrings — the check runs over the whole
key, not the portion after the dot. -/
theorem entry_methods_portion_counterexample :
    getAvailableEntryMethods entryExampleMap = ["onCreateX.foo"] ∧
    extractMethodName "onCreateX.foo" = "foo" ∧
    entryPatterns.all (fun pat => !(strIncludes "foo" pat)) = true := by
  decide

/-- C10: evaluating the scanner at the five-line Java source
`class A { void m() { return foo(1); } }` shows that the body line
`return foo(1);` (line 3), occurring while method `m` is open, is
recognized as a new method declaration: the parse yields two methods,
`A.m` (line 2, no statements) and `A.foo` (line 3), instead of a single
method `m` with one call statement. -/
theorem method_decl_inside_method_bug :
    (parseFile javaBugLines).map (fun cl =>
      (cl.name, cl.methods.map (fun m =>
        (m.fullName, m.lineNumber, m.statements.length)))) =
      [("A", [("A.m", 2, 0), ("A.foo", 3, 0)])] := by
  decide

/-- C1 (amended): for every function map and entry method the trace
never runs forever — the visited-set guard bounds each distinct method
name to one full unfolding, so fuel of one nesting level per key
suffices — and it either returns a finite graph or throws the
`TypeError` raised when a traced name indexes an inherited
`Object.prototype` member instead of a map entry; on the mutual
recursion `A.f` calls `g`, `B.g` calls `f`, the trace returns the finite
five-node graph in which the second encounter of `A.f` is the distinct
reference node `A.f (ref)` linked from its parent by a `calls` edge,
without re-expanding `A.f`. -/
theorem trace_always_terminates :
    (∀ (fm : FuncMap) (entryMethod : String),
      (∃ g, traceFromEntryMethodRun fm entryMethod = TraceOutcome.graph g) ∨
        traceFromEntryMethodRun fm entryMethod = TraceOutcome.typeError) ∧
    traceFromEntryMethodRun mutualRecursionMap "A.f" = TraceOutcome.graph
      { nodes := [startNode,
          ⟨1, NodeType.method, "f", some "A", none, none, none⟩,
          ⟨2, NodeType.method, "g", some "B", none, none, none⟩,
          ⟨3, NodeType.method, "A.f (ref)", some "A", none, none, none⟩,
          ⟨4, NodeType.«end», "END", none, none, none, none⟩],
        links := [⟨0, 1, LinkType.calls, none⟩, ⟨1, 2, LinkType.calls, none⟩,
          ⟨2, 3, LinkType.calls, none⟩],
        entryMethod := "A.f" } := by
  constructor
  · intro fm entryMethod
    have h := run_not_outOfFuel fm entryMethod
    cases hg : traceFromEntryMethodRun fm entryMethod with
    | graph g => exact Or.inl ⟨g, rfl⟩
    | typeError => exact Or.inr rfl
    | outOfFuel => exact absurd hg h
  · decide

/-- C1 (counterexample): a body line such as `sb.toString()` yields the
callee `toString`; over the one-key map `A.go` the callee resolves to
the bare name, `funcMap[toString]` returns the truthy inherited
`Object.prototype.toString`, the tracer recurses into it, and the
`for...of` over that non-iterable function throws a `TypeError` — the
trace of `A.go` produces no graph, refuting the claim's universal
"terminates and produces a finite graph". -/
theorem prototype_callee_crash_counterexample :
    traceFromEntryMethodRun
      [("A.go", [Statement.method_call "toString" 3])] "A.go" =
      TraceOutcome.typeError := by
  decide

/-- C2 (amended): when the entry method is bound to an empty statement
list, or is absent from the map and is not the name of an inherited
`Object.prototype` property, the run returns exactly the graph Start,
one Method node for the entry (method-name and class-name portions
extracted from it), and End, with a single `calls` edge from Start to
the Method node; such an absent entry is not an error. -/
theorem trace_empty_entry_graph (fm : FuncMap) (entryMethod : String)
    (h : FuncMap.find fm entryMethod = PropValue.statements [] ∨
      FuncMap.find fm entryMethod = PropValue.undefined) :
    traceFromEntryMethodRun fm entryMethod = TraceOutcome.graph
      { nodes := [startNode,
          ⟨1, NodeType.method, extractMethodName entryMethod,
            some (extractClassName entryMethod), none, none, none⟩,
          ⟨2, NodeType.«end», "END", none, none, none, none⟩],
        links := [⟨0, 1, LinkType.calls, none⟩],
        entryMethod := entryMethod } ∧
    traceFromEntryMethod fm entryMethod =
      { nodes := [startNode,
          ⟨1, NodeType.method, extractMethodName entryMethod,
            some (extractClassName entryMethod), none, none, none⟩,
          ⟨2, NodeType.«end», "END", none, none, none, none⟩],
        links := [⟨0, 1, LinkType.calls, none⟩],
        entryMethod := entryMethod } := by
  have hrun : traceFromEntryMethodRun fm entryMethod = TraceOutcome.graph
      { nodes := [startNode,
          ⟨1, NodeType.method, extractMethodName entryMethod,
            some (extractClassName entryMethod), none, none, none⟩,
          ⟨2, NodeType.«end», "END", none, none, none, none⟩],
        links := [⟨0, 1, LinkType.calls, none⟩],
        entryMethod := entryMethod } := by
    unfold traceFromEntryMethodRun
    simp only [traceMethod]
    rw [if_neg (by simp [initialState])]
    rcases h with h | h <;> rw [h] <;>
      simp [processStmts, initialState, startNode]
  exact ⟨hrun, traceFromEntryMethod_eq_of_graph fm entryMethod _ hrun⟩

/-- C2 (witness): tracing the absent entry `Q.z` — not an
`Object.prototype` name — over a one-key map. -/
theorem trace_empty_entry_graph_witness :
    traceFromEntryMethodRun [("X.y", [Statement.method_call "q" 1])] "Q.z" =
      TraceOutcome.graph
      { nodes := [startNode,
          ⟨1, NodeType.method, "z", some "Q", none, none, none⟩,
          ⟨2, NodeType.«end», "END", none, none, none, none⟩],
        links := [⟨0, 1, LinkType.calls, none⟩],
        entryMethod := "Q.z" } ∧
    traceFromEntryMethod [("X.y", [Statement.method_call "q" 1])] "Q.z" =
      { nodes := [startNode,
          ⟨1, NodeType.method, "z", some "Q", none, none, none⟩,
          ⟨2, NodeType.«end», "END", none, none, none, none⟩],
        links := [⟨0, 1, LinkType.calls, none⟩],
        entryMethod := "Q.z" } :=
  trace_empty_entry_graph [("X.y", [Statement.method_call "q" 1])] "Q.z"
    (Or.inr rfl)

/-- C2 (counterexample): the entry `valueOf` is absent from the map —
`Object.keys` sees only `X.y` — yet tracing it is an error, not the
three-node graph: `funcMap[valueOf]` returns the truthy inherited
`Object.prototype.valueOf` and the `for...of` over it throws a
`TypeError`, refuting "an absent entry method is not an error". -/
theorem absent_prototype_entry_counterexample :
    FuncMap.keys [("X.y", [])] = ["X.y"] ∧
    traceFromEntryMethodRun [("X.y", [])] "valueOf" =
      TraceOutcome.typeError := by
  decide

/-- C3: every traced graph is well-formed: the node ids are strictly
increasing in emission order (hence pairwise distinct), and the source
and target of every edge are ids of nodes of the graph. -/
theorem trace_graph_wellformed (fm : FuncMap) (entryMethod : String) :
    ((traceFromEntryMethod fm entryMethod).nodes.map FlowNode.id).Pairwise
        (fun a b => a < b) ∧
    ((traceFromEntryMethod fm entryMethod).nodes.map FlowNode.id).Nodup ∧
    (∀ l ∈ (traceFromEntryMethod fm entryMethod).links,
      l.source ∈ (traceFromEntryMethod fm entryMethod).nodes.map FlowNode.id ∧
      l.target ∈ (traceFromEntryMethod fm entryMethod).nodes.map FlowNode.id) := by
  rcases run_cases fm entryMethod with hrun | ⟨_, hph⟩
  · obtain ⟨r, st2, htr, hinv2, hstep2, hg⟩ :=
      run_graph_spec fm entryMethod _ hrun
    rw [hg]
    obtain ⟨i1, i2, i3⟩ := hinv2
    have hpw : ((st2.nodes ++ [(⟨st2.nodeIdCounter, NodeType.«end», "END",
        none, none, none, none⟩ : FlowNode)]).map FlowNode.id).Pairwise
        (fun a b => a < b) := by
      rw [List.map_append]
      refine List.pairwise_append.mpr ⟨i2, by simp, ?_⟩
      intro a ha b hb
      simp at hb
      subst hb
      exact nodeIds_lt_counter ⟨i1, i2, i3⟩ ha
    refine ⟨hpw, ?_, ?_⟩
    · exact List.Pairwise.imp (fun hab => Nat.ne_of_lt hab) hpw
    · intro l hl
      obtain ⟨hs, ht⟩ := i3 l hl
      constructor
      · show l.source ∈ (st2.nodes ++ _).map FlowNode.id
        rw [List.map_append]
        exact List.mem_append_left _ hs
      · show l.target ∈ (st2.nodes ++ _).map FlowNode.id
        rw [List.map_append]
        exact List.mem_append_left _ ht
  · rw [hph]
    obtain ⟨h1, h2, _, _, h5⟩ := placeholderGraph_wellformed entryMethod
    refine ⟨h1, h2, ?_⟩
    intro l hl
    rw [h5] at hl
    exact absurd hl (List.not_mem_nil l)

/-- C8: every traced graph contains exactly one End node, it is the last
node emitted, and no edge of the graph has the End node's id as source or
target. -/
theorem end_node_isolated (fm : FuncMap) (entryMethod : String) :
    ∃ e,
      (traceFromEntryMethod fm entryMethod).nodes.getLast? = some e ∧
      e.type = NodeType.«end» ∧
      ((traceFromEntryMethod fm entryMethod).nodes.filter
        (fun n => n.type == NodeType.«end»)).length = 1 ∧
      ∀ l ∈ (traceFromEntryMethod fm entryMethod).links,
        l.source ≠ e.id ∧ l.target ≠ e.id := by
  rcases run_cases fm entryMethod with hrun | ⟨_, hph⟩
  · obtain ⟨r, st2, htr, hinv2, hstep2, hg⟩ :=
      run_graph_spec fm entryMethod _ hrun
    rw [hg]
    refine ⟨⟨st2.nodeIdCounter, NodeType.«end», "END", none, none, none, none⟩,
      ?_, rfl, ?_, ?_⟩
    · simp
    · rw [List.filter_append]
      have h1 : st2.nodes.filter (fun n => n.type == NodeType.«end») = [] := by
        obtain ⟨_, _, ⟨ns, hn, hns⟩, _⟩ := hstep2
        rw [hn]
        rw [List.filter_append]
        have h2 : initialState.nodes.filter
            (fun n => n.type == NodeType.«end») = [] := by decide
        have h3 : ns.filter (fun n => n.type == NodeType.«end») = [] := by
          rw [List.filter_eq_nil_iff]
          intro n hn1
          have h4 := (hns n hn1).2.2
          simp only [beq_eq_false_iff_ne, ne_eq, Bool.not_eq_true]
          simpa using h4
        rw [h2, h3]
        rfl
      rw [h1]
      rfl
    · intro l hl
      obtain ⟨hs, ht⟩ := hinv2.2.2 l hl
      exact ⟨Nat.ne_of_lt (nodeIds_lt_counter hinv2 hs),
        Nat.ne_of_lt (nodeIds_lt_counter hinv2 ht)⟩
  · rw [hph]
    obtain ⟨_, _, h3, h4, h5⟩ := placeholderGraph_wellformed entryMethod
    refine ⟨⟨1, NodeType.«end», "END", none, none, none, none⟩,
      h3, rfl, h4, ?_⟩
    intro l hl
    rw [h5] at hl
    exact absurd hl (List.not_mem_nil l)

/-- C7 (amended): a Call statement whose callee matches no key — no key
ends in `.calleeName` and none equals it — and whose callee is not the
name of an inherited `Object.prototype` property is not an error:
exactly one leaf Method node named with the bare callee name and one
`calls` edge from the parent are appended, and the leaf's id is
returned. -/
theorem unresolved_call_leaf (fm : FuncMap) (recur : TraceFn) (name : String)
    (lineNumber pid : Nat) (st : TraceState)
    (h : ∀ k ∈ FuncMap.keys fm,
      strEndsWith k ("." ++ name) = false ∧ k ≠ name)
    (hproto : name ∉ objectPrototypeProps) :
    processMethodCall fm recur name lineNumber pid st =
      TraceResult.ok st.nodeIdCounter
        { st with
          nodes := st.nodes ++ [⟨st.nodeIdCounter, NodeType.method, name,
            none, none, none, some lineNumber⟩],
          links := st.links ++ [⟨pid, st.nodeIdCounter, LinkType.calls, none⟩],
          nodeIdCounter := st.nodeIdCounter + 1 } := by
  have hres : resolveFullMethodName fm name = name := by
    unfold resolveFullMethodName
    simp only []
    have hnil : (FuncMap.keys fm).filter (fun key =>
        strEndsWith key ("." ++ name) || key == name) = [] := by
      rw [List.filter_eq_nil_iff]
      intro k hk
      obtain ⟨h1, h2⟩ := h k hk
      simp [h1, h2]
    rw [hnil]
    rfl
  have hfind : FuncMap.find fm name = PropValue.undefined := by
    refine find_eq_undefined fm name ?_ hproto
    intro hk
    exact (h name hk).2 rfl
  unfold processMethodCall
  simp only [processStatement]
  rw [hres, hfind]

/-- C7 (witness): the callee `c` matches neither key shape over the
one-key map `A.b` and is not an `Object.prototype` property name. -/
theorem unresolved_call_leaf_witness :
    processMethodCall [("A.b", [])] (traceMethod [("A.b", [])] 1) "c" 7 0
      initialState =
      TraceResult.ok 1
        { initialState with
          nodes := initialState.nodes ++
            [⟨1, NodeType.method, "c", none, none, none, some 7⟩],
          links := initialState.links ++ [⟨0, 1, LinkType.calls, none⟩],
          nodeIdCounter := 2 } :=
  unresolved_call_leaf [("A.b", [])] (traceMethod [("A.b", [])] 1) "c" 7 0
    initialState (by decide) (by decide)

/-- C7 (counterexample): over the one-key map `A.b` the callee
`toString` matches no key — no key ends in `.toString` and none equals
it — yet `processMethodCall` appends no leaf node and fails: the
inherited `Object.prototype.toString` is truthy, so the tracer recurses
into `traceMethod`, whose `for...of` over the non-iterable inherited
function throws a `TypeError`, refuting "does not fail". -/
theorem unresolved_prototype_call_counterexample :
    (∀ k ∈ FuncMap.keys [("A.b", [])],
      strEndsWith k ".toString" = false ∧ k ≠ "toString") ∧
    processMethodCall [("A.b", [])] (traceMethod [("A.b", [])] 2) "toString"
      7 0 initialState = TraceResult.typeError := by
  decide

/-- C4 (counterexample): with true body `[a(); b();]` and empty false
body, the unique `if_true` edge out of the decision node (id 2) targets
node 4 — the node of the second call `b`, where true-body processing
ends — and not the true body's first node (node 3, the call `a`) nor the
merge node (id 5); the claim's `if_true` target is wrong for bodies of
more than one statement. -/
theorem branch_first_node_counterexample :
    (traceFromEntryMethod branchExampleMap "E.go").links.filter
      (fun l => l.type == LinkType.if_true) =
      [⟨2, 4, LinkType.if_true, some "true"⟩] ∧
    (traceFromEntryMethod branchExampleMap "E.go").nodes.filter
      (fun n => n.name == "a") =
      [⟨3, NodeType.method, "a", none, none, none, some 3⟩] ∧
    (traceFromEntryMethod branchExampleMap "E.go").nodes.filter
      (fun n => n.name == "Merge") =
      [⟨5, NodeType.method, "Merge", none, none, none, none⟩] := by
  decide

/-- C5 (counterexample): with loop body `[m();]` where `m` resolves to
`A.m` whose body calls the unresolved `x`, the loop node is node 2, the
Method node for the call is node 3, yet the `loop_exit` back edge into
the loop comes from node 4 (the node of `x`, where body processing ends);
no back edge from the call node 3 exists, refuting the claim's back-edge
source for calls that expand further. -/
theorem loop_back_edge_counterexample :
    (traceFromEntryMethod loopExampleMap "E.go").links.filter
      (fun l => l.type == LinkType.loop_exit && l.target == 2) =
      [⟨4, 2, LinkType.loop_exit, none⟩] ∧
    (traceFromEntryMethod loopExampleMap "E.go").nodes.filter
      (fun n => n.type == NodeType.loop) =
      [⟨2, NodeType.loop, "WHILE Loop", none, some "c",
        some LoopType.«while», some 2⟩] ∧
    (traceFromEntryMethod loopExampleMap "E.go").nodes.filter
      (fun n => n.name == "m") =
      [⟨3, NodeType.method, "m", some "A", none, none, none⟩] ∧
    (⟨3, 2, LinkType.loop_exit, none⟩ : FlowLink) ∉
      (traceFromEntryMethod loopExampleMap "E.go").links := by
  decide

/-- C4 (amended): for a Branch statement with non-empty true body and
empty false body, `processIfStatement` emits a Decision node with a
sequence edge into it from the parent, a Merge node whose id is returned,
exactly one `if_true` edge out of the Decision node — toward the node at
which true-body processing ends, or directly to the merge node when that
processing returns the decision id — and no `if_false` edge out of the
Decision node. -/
theorem branch_true_wiring (fm : FuncMap) (recur : TraceFn)
    (hrec : RecurOk recur) (c : String) (ln : Nat) (tb : List Statement)
    (pid : Nat) (st : TraceState) (hinv : TraceInv st)
    (hpid : pid ∈ nodeIds st) (htb0 : tb ≠ []) (r : Nat) (stF : TraceState)
    (h : processIfStatement fm recur c ln tb [] pid st =
      TraceResult.ok r stF) :
    ∃ trueEnd st2,
      processStmts fm recur tb st.nodeIdCounter
        ⟨st.visited,
          st.nodes ++ [⟨st.nodeIdCounter, NodeType.decision, "Decision",
            none, some c, none, some ln⟩],
          st.links ++ [⟨pid, st.nodeIdCounter, LinkType.sequence, none⟩],
          st.nodeIdCounter + 1⟩ = TraceResult.ok trueEnd st2 ∧
      (⟨st.nodeIdCounter, NodeType.decision, "Decision", none, some c, none,
        some ln⟩ : FlowNode) ∈ stF.nodes ∧
      (⟨pid, st.nodeIdCounter, LinkType.sequence, none⟩ : FlowLink) ∈ stF.links ∧
      (⟨r, NodeType.method, "Merge", none, none, none, none⟩ : FlowNode) ∈
        stF.nodes ∧
      stF.links.filter (fun l =>
          l.source == st.nodeIdCounter && l.type == LinkType.if_true) =
        [⟨st.nodeIdCounter,
          if trueEnd = st.nodeIdCounter then r else trueEnd,
          LinkType.if_true, some "true"⟩] ∧
      stF.links.filter (fun l =>
          l.source == st.nodeIdCounter && l.type == LinkType.if_false) = [] := by
  unfold processIfStatement at h
  simp only [processStatement] at h
  split at h
  · exact TraceResult.noConfusion h
  · exact TraceResult.noConfusion h
  · rename_i tEnd st2 htb
    simp only [processStmts] at h
    have hlen : 0 < tb.length := List.length_pos.mpr htb0
    rw [if_pos (by simp [hlen])] at h
    simp only [TraceResult.ok.injEq] at h
    obtain ⟨rfl, rfl⟩ := h
    have hp1 := push_node_link st hinv (stepOk_rfl st)
      NodeType.decision (by decide) (by decide) "Decision" none (some c)
      none (some ln) hpid LinkType.sequence (by decide) (by decide)
      none st.visited (fun x hx => hx)
    have hdecmem : st.nodeIdCounter ∈ nodeIds
        ⟨st.visited,
          st.nodes ++ [⟨st.nodeIdCounter, NodeType.decision, "Decision",
            none, some c, none, some ln⟩],
          st.links ++ [⟨pid, st.nodeIdCounter, LinkType.sequence, none⟩],
          st.nodeIdCounter + 1⟩ := by
      show st.nodeIdCounter ∈ (st.nodes ++ _).map FlowNode.id
      rw [List.map_append]
      apply List.mem_append_right
      simp
    obtain ⟨hinv2, hstep2, hmem2, hr2⟩ :=
      processStmts_ok fm recur hrec tb st.nodeIdCounter _ hp1.1 hdecmem
        tEnd st2 htb
    obtain ⟨ns, hn2, hns⟩ := hstep2.2.2.1
    obtain ⟨ls, hl2, hls⟩ := hstep2.2.2.2
    have hfilst : ∀ ty : LinkType, st.links.filter (fun l =>
        l.source == st.nodeIdCounter && l.type == ty) = [] := by
      intro ty
      rw [List.filter_eq_nil_iff]
      intro l hl
      have hlt := nodeIds_lt_counter hinv (hinv.2.2 l hl).1
      simp only [Bool.and_eq_true, beq_iff_eq, not_and]
      intro h1
      exact absurd h1 (Nat.ne_of_lt hlt)
    have hfills : ∀ ty : LinkType, (ty = LinkType.if_true ∨
        ty = LinkType.if_false) → ls.filter (fun l =>
        l.source == st.nodeIdCounter && l.type == ty) = [] := by
      intro ty hty
      rw [List.filter_eq_nil_iff]
      intro l hl
      simp only [Bool.and_eq_true, beq_iff_eq, not_and]
      intro h1 h2
      have h3 := hls l hl (by rw [h2]; exact hty)
      simp only at h3
      omega
    by_cases hte : tEnd = st.nodeIdCounter
    · subst hte
      refine ⟨st.nodeIdCounter, st2, htb, ?_, ?_, ?_, ?_, ?_⟩
      · simp [hlen, hn2, List.mem_append]
      · simp [hlen, hl2, List.mem_append]
      · simp [hlen, List.mem_append]
      · simp [hlen, hl2, List.filter_append, hfilst LinkType.if_true,
          hfills LinkType.if_true (Or.inl rfl), List.filter_cons]
      · simp [hlen, hl2, List.filter_append, hfilst LinkType.if_false,
          hfills LinkType.if_false (Or.inr rfl), List.filter_cons]
    · refine ⟨tEnd, st2, htb, ?_, ?_, ?_, ?_, ?_⟩
      · simp [hlen, hte, hn2, List.mem_append]
      · simp [hlen, hte, hl2, List.mem_append]
      · simp [hlen, hte, List.mem_append]
      · simp [hlen, hte, hl2, List.filter_append, hfilst LinkType.if_true,
          hfills LinkType.if_true (Or.inl rfl), List.filter_cons]
      · simp [hlen, hte, hl2, List.filter_append, hfilst LinkType.if_false,
          hfills LinkType.if_false (Or.inr rfl), List.filter_cons]

/-- C4 (witness): the branch wiring at a concrete one-call true body. -/
theorem branch_true_wiring_witness :
    ∃ trueEnd st2,
      processStmts [] (traceMethod [] 1) [Statement.method_call "a" 1] 1
        ⟨[], [startNode, ⟨1, NodeType.decision, "Decision", none, some "c",
            none, some 2⟩],
          [⟨0, 1, LinkType.sequence, none⟩], 2⟩ = TraceResult.ok trueEnd st2 ∧
      (⟨1, NodeType.decision, "Decision", none, some "c", none, some 2⟩ :
        FlowNode) ∈
        ([startNode,
          ⟨1, NodeType.decision, "Decision", none, some "c", none, some 2⟩,
          ⟨2, NodeType.method, "a", none, none, none, some 1⟩,
          ⟨3, NodeType.method, "Merge", none, none, none, none⟩] :
          List FlowNode) ∧
      (⟨0, 1, LinkType.sequence, none⟩ : FlowLink) ∈
        ([⟨0, 1, LinkType.sequence, none⟩, ⟨1, 2, LinkType.calls, none⟩,
          ⟨1, 2, LinkType.if_true, some "true"⟩,
          ⟨2, 3, LinkType.sequence, none⟩] : List FlowLink) ∧
      (⟨3, NodeType.method, "Merge", none, none, none, none⟩ : FlowNode) ∈
        ([startNode,
          ⟨1, NodeType.decision, "Decision", none, some "c", none, some 2⟩,
          ⟨2, NodeType.method, "a", none, none, none, some 1⟩,
          ⟨3, NodeType.method, "Merge", none, none, none, none⟩] :
          List FlowNode) ∧
      ([⟨0, 1, LinkType.sequence, none⟩, ⟨1, 2, LinkType.calls, none⟩,
        ⟨1, 2, LinkType.if_true, some "true"⟩,
        ⟨2, 3, LinkType.sequence, none⟩] : List FlowLink).filter
        (fun l => l.source == 1 && l.type == LinkType.if_true) =
        [⟨1, if trueEnd = 1 then 3 else trueEnd, LinkType.if_true,
          some "true"⟩] ∧
      ([⟨0, 1, LinkType.sequence, none⟩, ⟨1, 2, LinkType.calls, none⟩,
        ⟨1, 2, LinkType.if_true, some "true"⟩,
        ⟨2, 3, LinkType.sequence, none⟩] : List FlowLink).filter
        (fun l => l.source == 1 && l.type == LinkType.if_false) = [] :=
  branch_true_wiring [] (traceMethod [] 1) (traceMethod_ok [] 1) "c" 2
    [Statement.method_call "a" 1] 0 initialState initialState_inv
    (by decide) (by simp) 3
    ⟨[], [startNode,
        ⟨1, NodeType.decision, "Decision", none, some "c", none, some 2⟩,
        ⟨2, NodeType.method, "a", none, none, none, some 1⟩,
        ⟨3, NodeType.method, "Merge", none, none, none, none⟩],
      [⟨0, 1, LinkType.sequence, none⟩, ⟨1, 2, LinkType.calls, none⟩,
        ⟨1, 2, LinkType.if_true, some "true"⟩,
        ⟨2, 3, LinkType.sequence, none⟩], 4⟩ rfl

/-- C5 (amended): a Loop statement whose body is exactly one Call emits a
Loop node carrying condition and loop kind, a sequence edge into it from
the parent, a Method-typed node for the call at the next id, a
`loop_exit` back edge into the Loop node from the node at which body
processing ends (the call's own node whenever the call does not expand
further), and an Exit node reached from the Loop node by a `loop_exit`
edge, whose id is returned. -/
theorem loop_single_call_wiring (fm : FuncMap) (fuel : Nat) (lt : LoopType)
    (c : String) (ln : Nat) (cname : String) (cln : Nat) (pid : Nat)
    (st : TraceState) (hinv : TraceInv st) (hpid : pid ∈ nodeIds st)
    (r : Nat) (stF : TraceState)
    (h : processLoopStatement fm (traceMethod fm fuel) lt c ln
      [Statement.method_call cname cln] pid st = TraceResult.ok r stF) :
    (⟨st.nodeIdCounter, NodeType.loop, loopTypeUpper lt ++ " Loop", none,
      some c, some lt, some ln⟩ : FlowNode) ∈ stF.nodes ∧
    (⟨pid, st.nodeIdCounter, LinkType.sequence, none⟩ : FlowLink) ∈ stF.links ∧
    (∃ n ∈ stF.nodes, n.id = st.nodeIdCounter + 1 ∧
      n.type = NodeType.method) ∧
    (∃ bodyEnd st2,
      processStmts fm (traceMethod fm fuel) [Statement.method_call cname cln]
        st.nodeIdCounter
        ⟨st.visited,
          st.nodes ++ [⟨st.nodeIdCounter, NodeType.loop,
            loopTypeUpper lt ++ " Loop", none, some c, some lt, some ln⟩],
          st.links ++ [⟨pid, st.nodeIdCounter, LinkType.sequence, none⟩],
          st.nodeIdCounter + 1⟩ = TraceResult.ok bodyEnd st2 ∧
      st.nodeIdCounter + 1 ≤ bodyEnd ∧
      (⟨bodyEnd, st.nodeIdCounter, LinkType.loop_exit, none⟩ : FlowLink) ∈
        stF.links) ∧
    (⟨r, NodeType.method, "Loop Exit", none, none, none, none⟩ : FlowNode) ∈
      stF.nodes ∧
    (⟨st.nodeIdCounter, r, LinkType.loop_exit, none⟩ : FlowLink) ∈
      stF.links := by
  unfold processLoopStatement at h
  simp only [processStatement] at h
  split at h
  · exact TraceResult.noConfusion h
  · exact TraceResult.noConfusion h
  · rename_i bodyEnd st2 hbody
    have hp1 := push_node_link st hinv (stepOk_rfl st) NodeType.loop
      (by decide) (by decide) (loopTypeUpper lt ++ " Loop") none (some c)
      (some lt) (some ln) hpid LinkType.sequence (by decide) (by decide)
      none st.visited (fun x hx => hx)
    have hloopmem : st.nodeIdCounter ∈ nodeIds
        ⟨st.visited,
          st.nodes ++ [⟨st.nodeIdCounter, NodeType.loop,
            loopTypeUpper lt ++ " Loop", none, some c, some lt, some ln⟩],
          st.links ++ [⟨pid, st.nodeIdCounter, LinkType.sequence, none⟩],
          st.nodeIdCounter + 1⟩ := by
      show st.nodeIdCounter ∈ (st.nodes ++ _).map FlowNode.id
      rw [List.map_append]
      apply List.mem_append_right
      simp
    -- decompose the singleton body fold
    have hbody1 := hbody
    simp only [processStmts] at hbody1
    split at hbody1
    · exact TraceResult.noConfusion hbody1
    · exact TraceResult.noConfusion hbody1
    · rename_i nid st2a hcall
      simp only [processStmts, TraceResult.ok.injEq] at hbody1
      obtain ⟨rfl, rfl⟩ := hbody1
      obtain ⟨hinv2, hstep2, hmem2, hfresh2⟩ :=
        processStatement_ok fm (traceMethod fm fuel) (traceMethod_ok fm fuel)
          (Statement.method_call cname cln) st.nodeIdCounter _ hp1.1 hloopmem
          nid st2a hcall
      obtain ⟨ns2, hn2, hns2⟩ := hstep2.2.2.1
      obtain ⟨ls2, hl2, hls2⟩ := hstep2.2.2.2
      -- the first node emitted by the call is a Method node at id + 1
      have hmn : ∃ n, n ∈ st2a.nodes ∧ n.id = st.nodeIdCounter + 1 ∧
          n.type = NodeType.method := by
        have hcall1 := hcall
        simp only [processStatement] at hcall1
        split at hcall1
        · -- own binding (truthy): traceMethod runs
          exact traceMethod_first_node fm fuel (resolveFullMethodName fm cname)
            st.nodeIdCounter _ hp1.1 hloopmem nid st2a hcall1
        · -- inherited Object.prototype member (truthy): traceMethod runs
          exact traceMethod_first_node fm fuel (resolveFullMethodName fm cname)
            st.nodeIdCounter _ hp1.1 hloopmem nid st2a hcall1
        · -- undefined: external call node
          rename_i hf
          simp only [TraceResult.ok.injEq] at hcall1
          obtain ⟨hr1, hst1⟩ := hcall1
          refine ⟨⟨st.nodeIdCounter + 1, NodeType.method, cname,
            none, none, none, some cln⟩, ?_, rfl, rfl⟩
          rw [← hst1]
          show _ ∈ (st.nodes ++ _) ++ [_]
          apply List.mem_append_right
          simp
      have hfresh2a : st.nodeIdCounter + 1 ≤ nid := hfresh2
      -- the back edge is pushed because the body advanced
      rw [if_pos (by omega)] at h
      simp only [TraceResult.ok.injEq] at h
      obtain ⟨rfl, rfl⟩ := h
      refine ⟨?_, ?_, ?_, ⟨nid, st2a, hbody, hfresh2a, ?_⟩, ?_, ?_⟩
      · show _ ∈ st2a.nodes ++ [_]
        apply List.mem_append_left
        rw [hn2]
        apply List.mem_append_left
        apply List.mem_append_right
        exact List.mem_singleton.mpr rfl
      · show _ ∈ (st2a.links ++ [_]) ++ [_]
        apply List.mem_append_left
        apply List.mem_append_left
        rw [hl2]
        apply List.mem_append_left
        apply List.mem_append_right
        exact List.mem_singleton.mpr rfl
      · obtain ⟨n, hn, hid, hty⟩ := hmn
        refine ⟨n, ?_, hid, hty⟩
        show _ ∈ st2a.nodes ++ [_]
        exact List.mem_append_left _ hn
      · show _ ∈ (st2a.links ++ [_]) ++ [_]
        apply List.mem_append_left
        apply List.mem_append_right
        exact List.mem_singleton.mpr rfl
      · show _ ∈ st2a.nodes ++ [_]
        apply List.mem_append_right
        exact List.mem_singleton.mpr rfl
      · show _ ∈ (st2a.links ++ [_]) ++ [_]
        apply List.mem_append_right
        exact List.mem_singleton.mpr rfl

/-- C5 (witness): the loop wiring at a concrete unresolved single call. -/
theorem loop_single_call_wiring_witness :
    (⟨1, NodeType.loop, "WHILE Loop", none, some "c", some LoopType.«while»,
      some 2⟩ : FlowNode) ∈
      ([startNode,
        ⟨1, NodeType.loop, "WHILE Loop", none, some "c",
          some LoopType.«while», some 2⟩,
        ⟨2, NodeType.method, "m", none, none, none, some 3⟩,
        ⟨3, NodeType.method, "Loop Exit", none, none, none, none⟩] :
        List FlowNode) ∧
    (⟨0, 1, LinkType.sequence, none⟩ : FlowLink) ∈
      ([⟨0, 1, LinkType.sequence, none⟩, ⟨1, 2, LinkType.calls, none⟩,
        ⟨2, 1, LinkType.loop_exit, none⟩, ⟨1, 3, LinkType.loop_exit, none⟩] :
        List FlowLink) ∧
    (∃ n ∈ ([startNode,
        ⟨1, NodeType.loop, "WHILE Loop", none, some "c",
          some LoopType.«while», some 2⟩,
        ⟨2, NodeType.method, "m", none, none, none, some 3⟩,
        ⟨3, NodeType.method, "Loop Exit", none, none, none, none⟩] :
        List FlowNode), n.id = 2 ∧ n.type = NodeType.method) ∧
    (∃ bodyEnd st2,
      processStmts [] (traceMethod [] 1) [Statement.method_call "m" 3] 1
        ⟨[], [startNode,
          ⟨1, NodeType.loop, "WHILE Loop", none, some "c",
            some LoopType.«while», some 2⟩],
          [⟨0, 1, LinkType.sequence, none⟩], 2⟩ = TraceResult.ok bodyEnd st2 ∧
      2 ≤ bodyEnd ∧
      (⟨bodyEnd, 1, LinkType.loop_exit, none⟩ : FlowLink) ∈
        ([⟨0, 1, LinkType.sequence, none⟩, ⟨1, 2, LinkType.calls, none⟩,
          ⟨2, 1, LinkType.loop_exit, none⟩,
          ⟨1, 3, LinkType.loop_exit, none⟩] : List FlowLink)) ∧
    (⟨3, NodeType.method, "Loop Exit", none, none, none, none⟩ : FlowNode) ∈
      ([startNode,
        ⟨1, NodeType.loop, "WHILE Loop", none, some "c",
          some LoopType.«while», some 2⟩,
        ⟨2, NodeType.method, "m", none, none, none, some 3⟩,
        ⟨3, NodeType.method, "Loop Exit", none, none, none, none⟩] :
        List FlowNode) ∧
    (⟨1, 3, LinkType.loop_exit, none⟩ : FlowLink) ∈
      ([⟨0, 1, LinkType.sequence, none⟩, ⟨1, 2, LinkType.calls, none⟩,
        ⟨2, 1, LinkType.loop_exit, none⟩, ⟨1, 3, LinkType.loop_exit, none⟩] :
        List FlowLink) :=
  loop_single_call_wiring [] 1 LoopType.«while» "c" 2 "m" 3 0 initialState
    initialState_inv (by decide) 3
    ⟨[], [startNode,
      ⟨1, NodeType.loop, "WHILE Loop", none, some "c",
        some LoopType.«while», some 2⟩,
      ⟨2, NodeType.method, "m", none, none, none, some 3⟩,
      ⟨3, NodeType.method, "Loop Exit", none, none, none, none⟩],
      [⟨0, 1, LinkType.sequence, none⟩, ⟨1, 2, LinkType.calls, none⟩,
        ⟨2, 1, LinkType.loop_exit, none⟩, ⟨1, 3, LinkType.loop_exit, none⟩],
      4⟩ rfl
